import Mathlib

/-!
Verification of the report compilation and rendering pipeline of
`auto_market_reporter` against its specification.

The development shallowly embeds the two core components:

* the markup serializer `generate` (src/reports/generate_report.py), and
* the markup parser `parse_report` (src/tools/export_report_pdf.py).

Strings are modelled as `List Char` (`Str`), Python floats as `ℚ`, SQL
`NULL`-able columns as `Option`.  The two external collaborators that the
spec excludes — the ISO-timestamp re-formatting done through the `datetime`
library (generate_report.py lines 76–82) and the narrative `summarize` call
(analysis/openai_summary.py) — are passed in as function parameters
(`fmtTs`, `sfn`); `summarize` may raise, which is modelled by `Except`.
-/


/-- Strings are lists of characters. -/
abbrev Str := List Char

/-- Convert a Lean string literal to the `Str` model. -/
def str (s : String) : Str := s.data

/-- Python whitespace (the ASCII characters matched by `str.strip` and
regex `\s`). -/
def wsb (c : Char) : Bool :=
  c == ' ' || c == '\t' || c == '\n' || c == '\r' || c == '\x0B' || c == '\x0C'

/-- `begins p s` models Python `s.startswith(p)`. -/
def begins : Str → Str → Bool
  | [], _ => true
  | _ :: _, [] => false
  | c :: p, d :: s => c == d && begins p s

/-- Remove leading whitespace (`str.lstrip`). -/
def lstrip (s : Str) : Str := s.dropWhile wsb

/-- Remove trailing whitespace (`str.rstrip`). -/
def rstrip : Str → Str
  | [] => []
  | c :: cs =>
    if rstrip cs = [] ∧ wsb c then [] else c :: rstrip cs

/-- Python `s.strip()`. -/
def strip (s : Str) : Str := lstrip (rstrip s)

/-- Python `s.rstrip("\n")`: remove trailing newline characters only. -/
def rstripNl : Str → Str
  | [] => []
  | c :: cs =>
    if rstripNl cs = [] ∧ c = '\n' then [] else c :: rstripNl cs

/-- Everything after the first `':'`: Python `s.split(":", 1)[1]`
(returns `[]` when there is no colon; the source only evaluates this
under a guard that guarantees a colon, see `tailColonE`). -/
def tailColon (s : Str) : Str := (s.dropWhile (fun c => !(c == ':'))).drop 1

/-- Fallible version of `tailColon`: Python `s.split(":", 1)[1]` raises
`IndexError` when `s` has no colon. -/
def tailColonE (s : Str) : Except Str Str :=
  match s.dropWhile (fun c => !(c == ':')) with
  | [] => Except.error (str "IndexError: list index out of range")
  | _ :: t => Except.ok t

/-- ASCII lower-casing of one character (Python `str.lower`, restricted to
the ASCII letters that occur in the guards of the source). -/
def lowerChar : Char → Char
  | 'A' => 'a' | 'B' => 'b' | 'C' => 'c' | 'D' => 'd' | 'E' => 'e'
  | 'F' => 'f' | 'G' => 'g' | 'H' => 'h' | 'I' => 'i' | 'J' => 'j'
  | 'K' => 'k' | 'L' => 'l' | 'M' => 'm' | 'N' => 'n' | 'O' => 'o'
  | 'P' => 'p' | 'Q' => 'q' | 'R' => 'r' | 'S' => 's' | 'T' => 't'
  | 'U' => 'u' | 'V' => 'v' | 'W' => 'w' | 'X' => 'x' | 'Y' => 'y'
  | 'Z' => 'z'
  | c => c

/-- Python `s.lower()`. -/
def lowerStr (s : Str) : Str := s.map lowerChar

/-- `is_url` (export_report_pdf.py lines 48–50). -/
def isUrlB (s : Str) : Bool :=
  begins (str "http://") (strip s) || begins (str "https://") (strip s)

/-- Matches regex `^\s{2}-\s+` (a 2-space-indented bullet). -/
def bullet2 : Str → Bool
  | a :: b :: c :: d :: _ => wsb a && wsb b && (c == '-') && wsb d
  | _ => false

/-- Matches regex `^\s{4}-\s+` (a 4-space-indented bullet). -/
def bullet4 : Str → Bool
  | a :: b :: c :: d :: e :: f :: _ =>
    wsb a && wsb b && wsb c && wsb d && (e == '-') && wsb f
  | _ => false

/-- Python `str.splitlines` (restricted to the `\n`, `\r`, `\r\n`
line breaks that occur in this pipeline). -/
def splitlines : Str → List Str
  | [] => []
  | '\r' :: '\n' :: cs => [] :: splitlines cs
  | '\n' :: cs => [] :: splitlines cs
  | '\r' :: cs => [] :: splitlines cs
  | c :: cs =>
    match splitlines cs with
    | [] => [[c]]
    | l :: ls => (c :: l) :: ls

/-- `"\n".join(lines)` as used by `generate` when writing the markup file. -/
def joinNL : List Str → Str
  | [] => []
  | [l] => l
  | l :: ls => l ++ '\n' :: joinNL ls

/-- Replace the last element of a list (models Python's in-place mutation
of the most recently appended news dict through the `last_news` alias). -/
def setLast (f : α → α) : List α → List α
  | [] => []
  | [a] => [f a]
  | a :: b :: rest => a :: setLast f (b :: rest)

/-! ## Parser data model (export_report_pdf.py lines 52–63)

The parsed report dict: `{"title", "meta", "sections"}`; each section dict
`{"ticker", "kv", "news", "ai"}`.  The `kv` dict only ever receives the four
fixed keys `date`, `close`, `volume`, `range`, modelled as four `Option`
fields.  A news item dict `{"line", "summary", "url"}`. -/

/-- One parsed news bullet: `{"line": txt, "summary": "", "url": ""}`. -/
structure NewsIt where
  line : Str
  summary : Str
  url : Str
deriving Repr, DecidableEq

/-- One parsed per-symbol section. -/
structure PSection where
  ticker : Str
  kvDate : Option Str
  kvClose : Option Str
  kvVol : Option Str
  kvRange : Option Str
  news : List NewsIt
  ai : Str
deriving Repr, DecidableEq

/-- The parsed report. -/
structure Report where
  title : Str
  meta : Str
  sections : List PSection
deriving Repr, DecidableEq

/-- Parser mode: `None` / `"news"` / `"ai"`. -/
inductive PMode where
  | off
  | news
  | ai
deriving Repr, DecidableEq

/-- Full parser state during the line scan: the report built so far, the
open section (`current`), the mode, and whether `last_news` aliases the
last element of the open section's news list. -/
structure PState where
  title : Str
  meta : Str
  secs : List PSection
  cur : Option PSection
  mode : PMode
  lastn : Bool
deriving Repr, DecidableEq

/-- A fresh section dict for ticker `tk`
(export_report_pdf.py lines 80–85). -/
def freshSec (tk : Str) : PSection :=
  ⟨tk, none, none, none, none, [], []⟩

/-- `report["sections"].append(current)` guarded by `if current`. -/
def flushCur : Option PSection → List PSection
  | none => []
  | some c => [c]

/-- The per-section branches of the parser loop (export_report_pdf.py
lines 93–147), for an open section `c`; `line` is already
newline-stripped.  The branch structure and order follow the source
exactly. -/
def secLine (st : PState) (c : PSection) (line : Str) : PState :=
  if begins (str "- Date:") line then
    { st with cur := some { c with kvDate := some (strip (tailColon line)) } }
  else if begins (str "- Close:") line then
    { st with cur := some { c with kvClose := some (strip (tailColon line)) } }
  else if begins (str "- Volume:") line then
    { st with cur := some { c with kvVol := some (strip (tailColon line)) } }
  else if begins (str "- 20D Range:") line then
    { st with cur := some { c with kvRange := some (strip (tailColon line)) } }
  else if begins (str "- News") line then
    { st with mode := PMode.news, lastn := false }
  else if begins (str "- AI Summary:") line ∨ begins (str "- Summary:") line then
    { st with mode := PMode.ai }
  else if st.mode = PMode.news ∧ bullet2 line = true then
    { st with cur := some { c with news := c.news ++ [⟨strip (line.drop 3), [], []⟩] },
              lastn := true }
  else if st.mode = PMode.news ∧ bullet4 line = true ∧ st.lastn = true then
    if begins (str "summary:") (lowerStr (strip (line.drop 5))) then
      { st with cur := some { c with news := setLast (fun it => { it with summary := strip (tailColon (strip (line.drop 5))) }) c.news } }
    else if isUrlB (strip (line.drop 5)) then
      { st with cur := some { c with news := setLast (fun it => { it with url := strip (line.drop 5) }) c.news } }
    else st
  else if st.mode = PMode.ai ∧ bullet2 line = true then
    { st with cur := some { c with ai := if c.ai ≠ [] then c.ai ++ '\n' :: strip (line.drop 3) else strip (line.drop 3) } }
  else if st.mode = PMode.ai ∧ strip line ≠ [] ∧ begins (str "- ") line = false then
    { st with cur := some { c with ai := strip (c.ai ++ ' ' :: strip line) } }
  else st

/-- The header branches of the parser loop (export_report_pdf.py lines
68–91): title, meta, section header, skip-outside-section. -/
def processLine0 (st : PState) (line : Str) : PState :=
  if begins (str "# ") line then
    { st with title := strip (line.drop 2) }
  else if st.meta = [] ∧ begins (str "## ") line = true then
    { st with meta := strip (line.drop 3) }
  else if begins (str "### ") line then
    { st with secs := st.secs ++ flushCur st.cur,
              cur := some (freshSec (strip (line.drop 4))),
              mode := PMode.off, lastn := false }
  else
    match st.cur with
    | none => st
    | some c => secLine st c line

/-- One iteration of the parser loop of `parse_report`
(export_report_pdf.py lines 65–147): `line = raw.rstrip("\n")`, then the
branch chain. -/
def processLine (st : PState) (raw : Str) : PState :=
  processLine0 st (rstripNl raw)

/-- Initial parser state. -/
def initState : PState := ⟨[], [], [], none, PMode.off, false⟩

/-- Run the parser over a list of lines and flush the last open section
(export_report_pdf.py lines 149–152). -/
def parseLines (ls : List Str) : Report :=
  let st := ls.foldl processLine initState
  ⟨st.title, st.meta, st.secs ++ flushCur st.cur⟩

/-- `parse_report` (export_report_pdf.py lines 52–152). -/
def parse_report (md_text : Str) : Report := parseLines (splitlines md_text)

/-! ## Number formatting

`generate` renders floats with `f"{x:.2f}"` / `f"{x:+.2f}"` and integers
with `f"{v:,}"`.  Prices are modelled as exact rationals; two-decimal
formatting rounds `100·q` to an integer (ties away from the even/odd
distinction do not occur in any statement below). -/

/-- Decimal digit character. -/
def digCh : ℕ → Char
  | 0 => '0' | 1 => '1' | 2 => '2' | 3 => '3' | 4 => '4'
  | 5 => '5' | 6 => '6' | 7 => '7' | 8 => '8' | 9 => '9'
  | _ => '0'

/-- Decimal digits of a natural number (fuel-structured so that the kernel
can evaluate it). -/
def natCharsGo : ℕ → ℕ → Str → Str
  | 0, _, acc => acc
  | fuel + 1, n, acc =>
    if n < 10 then digCh n :: acc
    else natCharsGo fuel (n / 10) (digCh (n % 10) :: acc)

/-- Decimal representation of a natural number. -/
def natChars (n : ℕ) : Str := natCharsGo (n + 1) n []

/-- Round `100·q` to the nearest integer (half up). -/
def rnd2 (q : ℚ) : ℤ := Int.fdiv (200 * q.num + (q.den : ℤ)) (2 * (q.den : ℤ))

/-- Two decimal digits with a leading zero when needed. -/
def pad2 (k : ℕ) : Str := if k < 10 then '0' :: natChars k else natChars k

/-- Digits of `|c|/100` point `|c| mod 100`. -/
def fmtAbs (c : ℤ) : Str := natChars (c.natAbs / 100) ++ '.' :: pad2 (c.natAbs % 100)

/-- Python `f"{q:.2f}"`. -/
def fmt2 (q : ℚ) : Str :=
  (if rnd2 q < 0 then ['-'] else []) ++ fmtAbs (rnd2 q)

/-- Python `f"{q:+.2f}"`. -/
def fmtPlus2 (q : ℚ) : Str :=
  (if rnd2 q < 0 then ['-'] else ['+']) ++ fmtAbs (rnd2 q)

/-- Insert thousands separators into a reversed digit string. -/
def grpRev : Str → Str
  | a :: b :: c :: d :: rest => a :: b :: c :: ',' :: grpRev (d :: rest)
  | l => l

/-- Python `f"{v:,}"`. -/
def fmtComma (v : ℤ) : Str :=
  (if v < 0 then ['-'] else []) ++ (grpRev (natChars v.natAbs).reverse).reverse

/-! ## Serializer data model (generate_report.py)

One `TickerData` is the slice of the relational store that `generate`
reads for one ticker: its `prices_daily` rows ordered by date descending
(the grouping loop of lines 27–33 guarantees at least one row per grouped
ticker, encoded here as `price0 :: priceRest`), and the result of the
3-most-recent news query of lines 59–66.  A `List TickerData` stands for
`latest_map` iterated in sorted key order (line 43). -/

/-- One `prices_daily` row (close prices are `NOT NULL` in practice —
line 32 would raise on a `NULL` close — volume is `NULL`-able). -/
structure PriceRow where
  date : Str
  close : ℚ
  volume : Option ℤ
deriving Repr, DecidableEq

/-- One row of the `news` query (all columns `NULL`-able). -/
structure NewsRow where
  published_at : Option Str
  headline : Option Str
  summary : Option Str
  source : Option Str
  url : Option Str
deriving Repr, DecidableEq

/-- Per-ticker slice of the store, as consumed by `generate`. -/
structure TickerData where
  ticker : Str
  price0 : PriceRow
  priceRest : List PriceRow
  news : List NewsRow
deriving Repr, DecidableEq

/-- All price rows of a ticker, newest first. -/
def prices (t : TickerData) : List PriceRow := t.price0 :: t.priceRest

/-- One entry of `news_items` (generate_report.py lines 95–101): the
field values after the normalization of lines 74–87. -/
structure GenNewsItem where
  published_at : Str
  source : Str
  headline : Str
  summary : Str
  url : Str
deriving Repr, DecidableEq

/-- The context handed to the `summarize` collaborator
(generate_report.py lines 128–141). -/
structure SumCtx where
  report_date : Str
  ticker : Str
  d0 : Str
  d1 : Str
  c0 : ℚ
  c1 : ℚ
  pct : ℚ
  volume : ℤ
  range_low : ℚ
  range_high : ℚ
  range_pos : ℚ
  news_items : List GenNewsItem
deriving Repr

/-- `pct = (c1 - c0) / c0 * 100 if c0 else 0.0`
(generate_report.py line 51). -/
def pctOf (c0 c1 : ℚ) : ℚ := if c0 ≠ 0 then (c1 - c0) / c0 * 100 else 0

/-- Fallible mirror of line 51: an unguarded division would raise
`ZeroDivisionError`, the `if c0` guard routes `c0 = 0` to `0.0`. -/
def pctE (c0 c1 : ℚ) : Except Str ℚ :=
  if c0 ≠ 0 then
    (if c0 = 0 then Except.error (str "ZeroDivisionError: float division by zero")
     else Except.ok ((c1 - c0) / c0)).map (fun x => x * 100)
  else Except.ok 0

/-- `pct` as set by lines 49–56: `None` when only one price sample
exists. -/
def pctOfT (t : TickerData) : Option ℚ :=
  match t.priceRest with
  | [] => none
  | r :: _ => some (pctOf r.close t.price0.close)

/-- The 20-sample window of closes (the `LIMIT 20` query of lines
103–110, reading the same date-descending ordering). -/
def closesOf (t : TickerData) : List ℚ := ((prices t).take 20).map (fun r => r.close)

/-- `low_20`/`high_20`/`range_pos` (generate_report.py lines 113–119). -/
structure RangeInfo where
  lo : ℚ
  hi : ℚ
  pos : ℚ
deriving Repr

/-- `max(closes_20)`, `min(closes_20)` and the guarded range position
(lines 113–119); the empty case mirrors the `else` branch of line 117. -/
def rangeOf (closes : List ℚ) (c1 : ℚ) : RangeInfo :=
  match closes with
  | [] => ⟨c1, c1, 1/2⟩
  | c :: cs =>
    ⟨cs.foldl min c, cs.foldl max c,
     if cs.foldl max c ≠ cs.foldl min c
     then (c1 - cs.foldl min c) / (cs.foldl max c - cs.foldl min c)
     else 1/2⟩

/-- Normalized news fields of one row (generate_report.py lines 74–87);
`fmtTs` stands for the `datetime.fromisoformat` re-formatting of lines
77–82, applied only to a non-empty `published_at`. -/
def newsRowItem (fmtTs : Str → Str) (r : NewsRow) : GenNewsItem :=
  ⟨(if r.published_at.getD [] = [] then [] else fmtTs (r.published_at.getD [])),
   strip (r.source.getD []),
   strip (r.headline.getD []),
   strip (r.summary.getD []),
   strip (r.url.getD [])⟩

/-- The display line `f"  - {published_at} | {source} | {headline}"`
without its bullet prefix (line 89). -/
def dispOf (it : GenNewsItem) : Str :=
  it.published_at ++ str " | " ++ it.source ++ str " | " ++ it.headline

/-- Markup lines of one news row (generate_report.py lines 89–93). -/
def newsRowLines (fmtTs : Str → Str) (r : NewsRow) : List Str :=
  (str "  - " ++ dispOf (newsRowItem fmtTs r)) ::
    ((if (newsRowItem fmtTs r).summary ≠ [] then [str "    - Summary: " ++ (newsRowItem fmtTs r).summary] else []) ++
     (if (newsRowItem fmtTs r).url ≠ [] then [str "    - " ++ (newsRowItem fmtTs r).url] else []))

/-- The news block body (lines 71–93): a placeholder bullet when the
query returned no rows. -/
def newsLinesOf (fmtTs : Str → Str) (rows : List NewsRow) : List Str :=
  if rows = [] then [str "  - (no recent news)"]
  else (rows.map (newsRowLines fmtTs)).flatten

/-- `news_items` (lines 69, 95–101): only populated when rows exist. -/
def newsItemsOf (fmtTs : Str → Str) (rows : List NewsRow) : List GenNewsItem :=
  if rows = [] then [] else rows.map (newsRowItem fmtTs)

/-- The key-value lines of one section (generate_report.py lines 49–57). -/
def kvLines (t : TickerData) : List Str :=
  match t.priceRest with
  | [] =>
    [str "- Latest: " ++ t.price0.date ++ str " | Close: " ++ fmt2 t.price0.close ++
     str " | Vol: " ++ fmtComma (t.price0.volume.getD 0)]
  | r :: _ =>
    [str "- Date: " ++ r.date ++ str " → " ++ t.price0.date,
     str "- Close: " ++ fmt2 r.close ++ str " → " ++ fmt2 t.price0.close ++
       str " (" ++ fmtPlus2 (pctOf r.close t.price0.close) ++ str "%)",
     str "- Volume: " ++ fmtComma (t.price0.volume.getD 0)]

/-- The `- 20D Range:` line (generate_report.py line 121). -/
def rangeLine (t : TickerData) : Str :=
  str "- 20D Range: low " ++ fmt2 (rangeOf (closesOf t) t.price0.close).lo ++
  str ", high " ++ fmt2 (rangeOf (closesOf t) t.price0.close).hi ++
  str ", position " ++ fmt2 (rangeOf (closesOf t) t.price0.close).pos

/-- The argument record of the `summarize` call (lines 128–141).  In the
one-sample branch `d0, c0 = d1, c1` (line 56), but `summarize` is never
called there. -/
def mkCtx (fmtTs : Str → Str) (rd : Str) (t : TickerData) (r : PriceRow) : SumCtx :=
  ⟨rd, t.ticker, r.date, t.price0.date, r.close, t.price0.close,
   pctOf r.close t.price0.close, t.price0.volume.getD 0,
   (rangeOf (closesOf t) t.price0.close).lo,
   (rangeOf (closesOf t) t.price0.close).hi,
   (rangeOf (closesOf t) t.price0.close).pos,
   newsItemsOf fmtTs t.news⟩

/-- The narrative bullet under `- Summary:` (generate_report.py lines
124–144): the missing-data placeholder when `pct is None`, otherwise the
`summarize` result, or the inline error placeholder when it raises. -/
def sumLines (fmtTs : Str → Str) (sfn : SumCtx → Except Str Str) (rd : Str) (t : TickerData) : List Str :=
  match t.priceRest with
  | [] => [str "  - (need at least 2 trading days of price data)"]
  | r :: _ =>
    match sfn (mkCtx fmtTs rd t r) with
    | Except.ok s => [str "  - " ++ s]
    | Except.error e => [str "  - (Error: " ++ e ++ str ")"]

/-- All markup lines of one ticker's section, in emission order
(generate_report.py lines 47–146): header, key-values, news block,
20D-range line, summary block, trailing blank line. -/
def genSection (fmtTs : Str → Str) (sfn : SumCtx → Except Str Str) (rd : Str) (t : TickerData) : List Str :=
  (str "### " ++ t.ticker) :: kvLines t ++
  (str "- News (headline + summary):" :: newsLinesOf fmtTs t.news) ++
  [rangeLine t, str "- Summary:"] ++
  sumLines fmtTs sfn rd t ++ [[]]

/-- Lexicographic string comparison (Python `<` on `str`). -/
def strLtB : Str → Str → Bool
  | [], [] => false
  | [], _ :: _ => true
  | _ :: _, [] => false
  | a :: as, b :: bs => if a < b then true else if b < a then false else strLtB as bs

/-- Lexicographically later string (Python `max` on `str`). -/
def maxStr (a b : Str) : Str := if strLtB a b then b else a

/-- `report_date` (generate_report.py lines 35–36): the maximum of the
per-ticker latest dates, falling back to the current date `now` when no
ticker has a sample. -/
def reportDate (now : Str) (db : List TickerData) : Str :=
  match db.map (fun t => t.price0.date) with
  | [] => now
  | d :: ds => ds.foldl maxStr d

/-- All markup lines of the report (generate_report.py lines 40–146);
the title element carries its own trailing `"\n"` (line 41). -/
def generateLines (fmtTs : Str → Str) (sfn : SumCtx → Except Str Str) (now : Str) (db : List TickerData) : List Str :=
  (str "# Daily Market Report (" ++ reportDate now db ++ str ")" ++ ['\n']) ::
    (db.map (genSection fmtTs sfn (reportDate now db))).flatten

/-- The markup text written to the report file: `"\n".join(lines)`
(generate_report.py line 149). -/
def genText (fmtTs : Str → Str) (sfn : SumCtx → Except Str Str) (now : Str) (db : List TickerData) : Str :=
  joinNL (generateLines fmtTs sfn now db)
/-! Literal expansions used by the symbolic proofs below. -/

/-- `s` contains no line-break character. -/
def NoNL (s : Str) : Prop := ∀ c ∈ s, c ≠ '\n' ∧ c ≠ '\r'

/-- The sequence of section tickers, counting the still-open section. -/
def secTrace (st : PState) : List Str :=
  (st.secs ++ flushCur st.cur).map PSection.ticker

/-- A line that matches no known line shape of the parser's grammar: not a
title/meta/symbol header, not one of the four key-value prefixes, not a
news/summary header, not an indented bullet, and not a narrative
continuation (the grammar treats any non-empty line that is not a `- `
bullet as a soft-wrapped narrative continuation while in narrative mode,
so an ignorable line must be blank or a `- `-bullet with an unknown
key). -/
def unknownShape (l : Str) : Prop :=
  begins (str "# ") (rstripNl l) = false ∧
  begins (str "## ") (rstripNl l) = false ∧
  begins (str "### ") (rstripNl l) = false ∧
  begins (str "- Date:") (rstripNl l) = false ∧
  begins (str "- Close:") (rstripNl l) = false ∧
  begins (str "- Volume:") (rstripNl l) = false ∧
  begins (str "- 20D Range:") (rstripNl l) = false ∧
  begins (str "- News") (rstripNl l) = false ∧
  begins (str "- AI Summary:") (rstripNl l) = false ∧
  begins (str "- Summary:") (rstripNl l) = false ∧
  bullet2 (rstripNl l) = false ∧
  bullet4 (rstripNl l) = false ∧
  (strip (rstripNl l) = [] ∨ begins (str "- ") (rstripNl l) = true)

instance unknownShape.instDecidable (l : Str) : Decidable (unknownShape l) := by
  unfold unknownShape
  infer_instance

/-- Last element of a list, with a default. -/
def lastD : Str → List Str → Str
  | d, [] => d
  | _, x :: r => lastD x r

/-- The stripped contents of all `# ` header lines. -/
def hashLines (ls : List Str) : List Str :=
  ls.filterMap (fun l =>
    if begins (str "# ") (rstripNl l) = true then some (strip ((rstripNl l).drop 2)) else none)

/-- First element that is nonempty after stripping, threading the
overwrite-only-when-empty rule. -/
def firstNE : Str → List Str → Str
  | m, [] => m
  | m, x :: r => firstNE (if m = [] then x else m) r

/-- The stripped contents of all `## ` meta lines. -/
def metaLines (ls : List Str) : List Str :=
  ls.filterMap (fun l =>
    if begins (str "## ") (rstripNl l) = true then some (strip ((rstripNl l).drop 3)) else none)

/-- The stripped tickers of all `### ` header lines, in order. -/
def tickersOf (ls : List Str) : List Str :=
  ls.filterMap (fun l =>
    if begins (str "### ") (rstripNl l) = true then some (strip ((rstripNl l).drop 4)) else none)

/-- Two price samples (closes 10 → 12), no news. -/
def tSample : TickerData :=
  ⟨str "ACME", ⟨str "2026-01-11", 12, some 100000⟩, [⟨str "2026-01-10", 10, some 90000⟩], []⟩

/-- Exactly one price sample. -/
def tSingle : TickerData :=
  ⟨str "SOLO", ⟨str "2026-01-11", 7, some 42⟩, [], []⟩

/-- Two price samples with equal closes (degenerate 20-day range). -/
def tFlat : TickerData :=
  ⟨str "FLAT", ⟨str "2026-01-11", 10, some 1⟩, [⟨str "2026-01-10", 10, some 1⟩], []⟩

/-- Two price samples whose prior close is zero. -/
def tZero : TickerData :=
  ⟨str "ZERO", ⟨str "2026-01-11", 5, some 1⟩, [⟨str "2026-01-10", 0, some 1⟩], []⟩

/-- A narrative collaborator that always succeeds. -/
def sfnOk : SumCtx → Except Str Str := fun _ => Except.ok (str "Steady close.")

/-- A narrative collaborator that always raises. -/
def sfnBoom : SumCtx → Except Str Str := fun _ => Except.error (str "boom")

/-! ## Claim C2: range-position bounds -/

/-- `secLine` with the `split(":", 1)[1]` accesses made fallible. -/
def secLineE (st : PState) (c : PSection) (line : Str) : Except Str PState :=
  if begins (str "- Date:") line then
    (tailColonE line).map (fun v => { st with cur := some { c with kvDate := some (strip v) } })
  else if begins (str "- Close:") line then
    (tailColonE line).map (fun v => { st with cur := some { c with kvClose := some (strip v) } })
  else if begins (str "- Volume:") line then
    (tailColonE line).map (fun v => { st with cur := some { c with kvVol := some (strip v) } })
  else if begins (str "- 20D Range:") line then
    (tailColonE line).map (fun v => { st with cur := some { c with kvRange := some (strip v) } })
  else if begins (str "- News") line then
    Except.ok { st with mode := PMode.news, lastn := false }
  else if begins (str "- AI Summary:") line ∨ begins (str "- Summary:") line then
    Except.ok { st with mode := PMode.ai }
  else if st.mode = PMode.news ∧ bullet2 line = true then
    Except.ok { st with cur := some { c with news := c.news ++ [⟨strip (line.drop 3), [], []⟩] }, lastn := true }
  else if st.mode = PMode.news ∧ bullet4 line = true ∧ st.lastn = true then
    if begins (str "summary:") (lowerStr (strip (line.drop 5))) then
      (tailColonE (strip (line.drop 5))).map (fun v =>
        { st with cur := some { c with news := setLast (fun it => { it with summary := strip v }) c.news } })
    else if isUrlB (strip (line.drop 5)) then
      Except.ok { st with cur := some { c with news := setLast (fun it => { it with url := strip (line.drop 5) }) c.news } }
    else Except.ok st
  else if st.mode = PMode.ai ∧ bullet2 line = true then
    Except.ok { st with cur := some { c with ai := if c.ai ≠ [] then c.ai ++ '\n' :: strip (line.drop 3) else strip (line.drop 3) } }
  else if st.mode = PMode.ai ∧ strip line ≠ [] ∧ begins (str "- ") line = false then
    Except.ok { st with cur := some { c with ai := strip (c.ai ++ ' ' :: strip line) } }
  else Except.ok st

/-- `processLine0` with fallible key-value splitting. -/
def processLine0E (st : PState) (line : Str) : Except Str PState :=
  if begins (str "# ") line then
    Except.ok { st with title := strip (line.drop 2) }
  else if st.meta = [] ∧ begins (str "## ") line = true then
    Except.ok { st with meta := strip (line.drop 3) }
  else if begins (str "### ") line then
    Except.ok { st with secs := st.secs ++ flushCur st.cur,
                        cur := some (freshSec (strip (line.drop 4))),
                        mode := PMode.off, lastn := false }
  else
    match st.cur with
    | none => Except.ok st
    | some c => secLineE st c line

/-- One fallible parser step. -/
def processLineE (st : PState) (raw : Str) : Except Str PState :=
  processLine0E st (rstripNl raw)

/-- The fallible parser. -/
def parseLinesE (ls : List Str) : Except Str Report :=
  (ls.foldlM processLineE initState).map
    (fun st => ⟨st.title, st.meta, st.secs ++ flushCur st.cur⟩)

/-- The fallible `parse_report`. -/
def parse_reportE (md_text : Str) : Except Str Report := parseLinesE (splitlines md_text)

/-- The parsed image of one serialized news row: the display line
whitespace-normalized, the (already stripped) summary and url verbatim. -/
def modelNewsIt (fmtTs : Str → Str) (r : NewsRow) : NewsIt :=
  ⟨strip (dispOf (newsRowItem fmtTs r)), (newsRowItem fmtTs r).summary, (newsRowItem fmtTs r).url⟩

/-- The parsed image of a section's news list: one item per serialized
news row, or the single placeholder bullet when there were none. -/
def modelNews (fmtTs : Str → Str) (rows : List NewsRow) : List NewsIt :=
  if rows = [] then [⟨str "(no recent news)", [], []⟩] else rows.map (modelNewsIt fmtTs)

/-- The parsed image of a section's narrative slot: the stripped
`summarize` text, the inline error placeholder, or the needs-more-data
placeholder. -/
def modelAi (fmtTs : Str → Str) (sfn : SumCtx → Except Str Str) (rd : Str) (t : TickerData) : Str :=
  match t.priceRest with
  | [] => str "(need at least 2 trading days of price data)"
  | r :: _ =>
    match sfn (mkCtx fmtTs rd t r) with
    | Except.ok s => strip s
    | Except.error e => str "(Error: " ++ e ++ str ")"

/-- The parsed image of one serialized section: ticker and field values
whitespace-normalized; a section serialized with no news rows parses back
with the single `(no recent news)` placeholder display line. -/
def modelSec (fmtTs : Str → Str) (sfn : SumCtx → Except Str Str) (rd : Str) (t : TickerData) : PSection :=
  { ticker := strip t.ticker
    kvDate := match t.priceRest with
      | [] => none
      | r :: _ => some (strip (r.date ++ str " → " ++ t.price0.date))
    kvClose := match t.priceRest with
      | [] => none
      | r :: _ => some (strip (fmt2 r.close ++ str " → " ++ fmt2 t.price0.close ++
          str " (" ++ fmtPlus2 (pctOf r.close t.price0.close) ++ str "%)"))
    kvVol := match t.priceRest with
      | [] => none
      | _ :: _ => some (strip (fmtComma (t.price0.volume.getD 0)))
    kvRange := some (strip (str "low " ++ fmt2 (rangeOf (closesOf t) t.price0.close).lo ++
      str ", high " ++ fmt2 (rangeOf (closesOf t) t.price0.close).hi ++
      str ", position " ++ fmt2 (rangeOf (closesOf t) t.price0.close).pos))
    news := modelNews fmtTs t.news
    ai := modelAi fmtTs sfn rd t }

/-! ## Well-formed field values -/

/-- A url field value is well-formed when it is empty or an absolute
http(s) url (the only urls the emitted `    - <url>` line can round-trip,
by the parser's `is_url` test). -/
def urlOK (u : Str) : Prop :=
  u = [] ∨ begins (str "http://") u = true ∨ begins (str "https://") u = true

/-- Well-formed news row: newline-free fields, and a url that is absent
or absolute. -/
def WFnews (r : NewsRow) : Prop :=
  NoNL (r.published_at.getD []) ∧ NoNL (r.headline.getD []) ∧ NoNL (r.summary.getD []) ∧
  NoNL (r.source.getD []) ∧ NoNL (r.url.getD []) ∧ urlOK (strip (r.url.getD []))

/-- Well-formed ticker slice: newline-free ticker and dates, well-formed
news rows. -/
def WFticker (t : TickerData) : Prop :=
  NoNL t.ticker ∧ (∀ p ∈ prices t, NoNL p.date) ∧ (∀ r ∈ t.news, WFnews r)

/-- Well-formed store slice. -/
def WFdb (db : List TickerData) : Prop := ∀ t ∈ db, WFticker t

/-- The timestamp re-formatting collaborator keeps strings newline-free. -/
def WFts (fmtTs : Str → Str) : Prop := ∀ s, NoNL s → NoNL (fmtTs s)

/-- The narrative collaborator returns newline-free text and newline-free
error messages. -/
def WFsum (sfn : SumCtx → Except Str Str) : Prop :=
  ∀ a, match sfn a with
    | Except.ok s => NoNL s
    | Except.error e => NoNL e

/-! ## Serialized lines are newline-free -/

instance NoNL.instDecidable (s : Str) : Decidable (NoNL s) := by
  unfold NoNL
  infer_instance

theorem sHash : str "# " = '#' :: ' ' :: [] := rfl

theorem sMeta2 : str "## " = '#' :: '#' :: ' ' :: [] := rfl

theorem sHdr3 : str "### " = '#' :: '#' :: '#' :: ' ' :: [] := rfl

theorem sDateP : str "- Date:" = '-' :: ' ' :: 'D' :: 'a' :: 't' :: 'e' :: ':' :: [] := rfl

theorem sCloseP : str "- Close:" = '-' :: ' ' :: 'C' :: 'l' :: 'o' :: 's' :: 'e' :: ':' :: [] := rfl

theorem sVolP : str "- Volume:" = '-' :: ' ' :: 'V' :: 'o' :: 'l' :: 'u' :: 'm' :: 'e' :: ':' :: [] := rfl

theorem sRangeP : str "- 20D Range:" = '-' :: ' ' :: '2' :: '0' :: 'D' :: ' ' :: 'R' :: 'a' :: 'n' :: 'g' :: 'e' :: ':' :: [] := rfl

theorem sNewsP : str "- News" = '-' :: ' ' :: 'N' :: 'e' :: 'w' :: 's' :: [] := rfl

theorem sAISumP : str "- AI Summary:" = '-' :: ' ' :: 'A' :: 'I' :: ' ' :: 'S' :: 'u' :: 'm' :: 'm' :: 'a' :: 'r' :: 'y' :: ':' :: [] := rfl

theorem sSumP : str "- Summary:" = '-' :: ' ' :: 'S' :: 'u' :: 'm' :: 'm' :: 'a' :: 'r' :: 'y' :: ':' :: [] := rfl

theorem sDashP : str "- " = '-' :: ' ' :: [] := rfl

theorem sSumLow : str "summary:" = 's' :: 'u' :: 'm' :: 'm' :: 'a' :: 'r' :: 'y' :: ':' :: [] := rfl

theorem sHttp : str "http://" = 'h' :: 't' :: 't' :: 'p' :: ':' :: '/' :: '/' :: [] := rfl

theorem sHttps : str "https://" = 'h' :: 't' :: 't' :: 'p' :: 's' :: ':' :: '/' :: '/' :: [] := rfl

theorem sPipe : str " | " = ' ' :: '|' :: ' ' :: [] := rfl

theorem sBul2 : str "  - " = ' ' :: ' ' :: '-' :: ' ' :: [] := rfl

theorem sBulSum : str "    - Summary: " = ' ' :: ' ' :: ' ' :: ' ' :: '-' :: ' ' :: 'S' :: 'u' :: 'm' :: 'm' :: 'a' :: 'r' :: 'y' :: ':' :: ' ' :: [] := rfl

theorem sBul4 : str "    - " = ' ' :: ' ' :: ' ' :: ' ' :: '-' :: ' ' :: [] := rfl

theorem sNewsHdr : str "- News (headline + summary):" = '-' :: ' ' :: 'N' :: 'e' :: 'w' :: 's' :: ' ' :: '(' :: 'h' :: 'e' :: 'a' :: 'd' :: 'l' :: 'i' :: 'n' :: 'e' :: ' ' :: '+' :: ' ' :: 's' :: 'u' :: 'm' :: 'm' :: 'a' :: 'r' :: 'y' :: ')' :: ':' :: [] := rfl

theorem sNoNews : str "  - (no recent news)" = ' ' :: ' ' :: '-' :: ' ' :: '(' :: 'n' :: 'o' :: ' ' :: 'r' :: 'e' :: 'c' :: 'e' :: 'n' :: 't' :: ' ' :: 'n' :: 'e' :: 'w' :: 's' :: ')' :: [] := rfl

theorem sNeed2 : str "  - (need at least 2 trading days of price data)" = ' ' :: ' ' :: '-' :: ' ' :: '(' :: 'n' :: 'e' :: 'e' :: 'd' :: ' ' :: 'a' :: 't' :: ' ' :: 'l' :: 'e' :: 'a' :: 's' :: 't' :: ' ' :: '2' :: ' ' :: 't' :: 'r' :: 'a' :: 'd' :: 'i' :: 'n' :: 'g' :: ' ' :: 'd' :: 'a' :: 'y' :: 's' :: ' ' :: 'o' :: 'f' :: ' ' :: 'p' :: 'r' :: 'i' :: 'c' :: 'e' :: ' ' :: 'd' :: 'a' :: 't' :: 'a' :: ')' :: [] := rfl

theorem sErrPre : str "  - (Error: " = ' ' :: ' ' :: '-' :: ' ' :: '(' :: 'E' :: 'r' :: 'r' :: 'o' :: 'r' :: ':' :: ' ' :: [] := rfl

theorem sRPar : str ")" = ')' :: [] := rfl

theorem sLatest : str "- Latest: " = '-' :: ' ' :: 'L' :: 'a' :: 't' :: 'e' :: 's' :: 't' :: ':' :: ' ' :: [] := rfl

theorem sPipeClose : str " | Close: " = ' ' :: '|' :: ' ' :: 'C' :: 'l' :: 'o' :: 's' :: 'e' :: ':' :: ' ' :: [] := rfl

theorem sPipeVol : str " | Vol: " = ' ' :: '|' :: ' ' :: 'V' :: 'o' :: 'l' :: ':' :: ' ' :: [] := rfl

theorem sDateKV : str "- Date: " = '-' :: ' ' :: 'D' :: 'a' :: 't' :: 'e' :: ':' :: ' ' :: [] := rfl

theorem sArrow : str " → " = ' ' :: '→' :: ' ' :: [] := rfl

theorem sCloseKV : str "- Close: " = '-' :: ' ' :: 'C' :: 'l' :: 'o' :: 's' :: 'e' :: ':' :: ' ' :: [] := rfl

theorem sLPar : str " (" = ' ' :: '(' :: [] := rfl

theorem sPctPar : str "%)" = '%' :: ')' :: [] := rfl

theorem sVolKV : str "- Volume: " = '-' :: ' ' :: 'V' :: 'o' :: 'l' :: 'u' :: 'm' :: 'e' :: ':' :: ' ' :: [] := rfl

theorem sRangeLow : str "- 20D Range: low " = '-' :: ' ' :: '2' :: '0' :: 'D' :: ' ' :: 'R' :: 'a' :: 'n' :: 'g' :: 'e' :: ':' :: ' ' :: 'l' :: 'o' :: 'w' :: ' ' :: [] := rfl

theorem sRangeHigh : str ", high " = ',' :: ' ' :: 'h' :: 'i' :: 'g' :: 'h' :: ' ' :: [] := rfl

theorem sRangePos : str ", position " = ',' :: ' ' :: 'p' :: 'o' :: 's' :: 'i' :: 't' :: 'i' :: 'o' :: 'n' :: ' ' :: [] := rfl

theorem sTitlePre : str "# Daily Market Report (" = '#' :: ' ' :: 'D' :: 'a' :: 'i' :: 'l' :: 'y' :: ' ' :: 'M' :: 'a' :: 'r' :: 'k' :: 'e' :: 't' :: ' ' :: 'R' :: 'e' :: 'p' :: 'o' :: 'r' :: 't' :: ' ' :: '(' :: [] := rfl

theorem sLow : str "low " = 'l' :: 'o' :: 'w' :: ' ' :: [] := rfl

theorem sNoNewsIn : str "(no recent news)" = '(' :: 'n' :: 'o' :: ' ' :: 'r' :: 'e' :: 'c' :: 'e' :: 'n' :: 't' :: ' ' :: 'n' :: 'e' :: 'w' :: 's' :: ')' :: [] := rfl

theorem sNeed2In : str "(need at least 2 trading days of price data)" = '(' :: 'n' :: 'e' :: 'e' :: 'd' :: ' ' :: 'a' :: 't' :: ' ' :: 'l' :: 'e' :: 'a' :: 's' :: 't' :: ' ' :: '2' :: ' ' :: 't' :: 'r' :: 'a' :: 'd' :: 'i' :: 'n' :: 'g' :: ' ' :: 'd' :: 'a' :: 'y' :: 's' :: ' ' :: 'o' :: 'f' :: ' ' :: 'p' :: 'r' :: 'i' :: 'c' :: 'e' :: ' ' :: 'd' :: 'a' :: 't' :: 'a' :: ')' :: [] := rfl

theorem sErrIn : str "(Error: " = '(' :: 'E' :: 'r' :: 'r' :: 'o' :: 'r' :: ':' :: ' ' :: [] := rfl

theorem sSumColSp : str "Summary: " = 'S' :: 'u' :: 'm' :: 'm' :: 'a' :: 'r' :: 'y' :: ':' :: ' ' :: [] := rfl

/-! ## Basic lemmas about the string model -/

@[simp] theorem begins_nil_left (s : Str) : begins [] s = true := rfl

@[simp] theorem begins_cons_nil (c : Char) (p : Str) : begins (c :: p) [] = false := rfl

@[simp] theorem begins_cons_cons (c d : Char) (p s : Str) :
    begins (c :: p) (d :: s) = ((c == d) && begins p s) := rfl

theorem begins_iff_append {p s : Str} : begins p s = true ↔ ∃ r, s = p ++ r := by
  induction p generalizing s with
  | nil => simp
  | cons c p ih =>
    cases s with
    | nil => simp
    | cons d s =>
      simp only [begins_cons_cons, Bool.and_eq_true, beq_iff_eq, ih, List.cons_append,
        List.cons.injEq]
      constructor
      · rintro ⟨rfl, r, rfl⟩; exact ⟨r, rfl, rfl⟩
      · rintro ⟨r, rfl, rfl⟩; exact ⟨rfl, r, rfl⟩

@[simp] theorem wsb_space : wsb ' ' = true := rfl

@[simp] theorem rstrip_nil : rstrip [] = [] := rfl

theorem rstrip_cons (c : Char) (cs : Str) :
    rstrip (c :: cs) = if rstrip cs = [] ∧ wsb c = true then [] else c :: rstrip cs := rfl

theorem rstrip_append {a b : Str} (h : rstrip b ≠ []) :
    rstrip (a ++ b) = a ++ rstrip b := by
  induction a with
  | nil => rfl
  | cons c a ih =>
    have hcond : ¬(a ++ rstrip b = [] ∧ wsb c = true) := by
      rintro ⟨h1, -⟩
      exact h (List.append_eq_nil.mp h1).2
    rw [List.cons_append, rstrip_cons, ih, if_neg hcond, List.cons_append]

theorem rstrip_idem (s : Str) : rstrip (rstrip s) = rstrip s := by
  induction s with
  | nil => rfl
  | cons c s ih =>
    by_cases h : rstrip s = [] ∧ wsb c = true
    · simp [rstrip_cons, h]
    · rw [rstrip_cons, if_neg h, rstrip_cons, ih, if_neg h]

theorem lstrip_idem (s : Str) : lstrip (lstrip s) = lstrip s := by
  simp only [lstrip]
  induction s with
  | nil => rfl
  | cons c s ih =>
    by_cases h : wsb c
    · simpa [List.dropWhile_cons, h] using ih
    · simp [List.dropWhile_cons, h]

theorem rstrip_lstrip_comm (s : Str) : rstrip (lstrip s) = lstrip (rstrip s) := by
  induction s with
  | nil => rfl
  | cons c s ih =>
    by_cases h : wsb c = true
    · rw [show lstrip (c :: s) = lstrip s from by simp [lstrip, List.dropWhile_cons, h], ih]
      by_cases h2 : rstrip s = []
      · simp [rstrip_cons, h2, h, lstrip]
      · simp [rstrip_cons, h2, h, lstrip, List.dropWhile_cons]
    · rw [show lstrip (c :: s) = c :: s from by simp [lstrip, List.dropWhile_cons, h]]
      by_cases h2 : rstrip s = []
      · simp [rstrip_cons, h2, h, lstrip, List.dropWhile_cons]
      · simp [rstrip_cons, h2, h, lstrip, List.dropWhile_cons, ih]

theorem lstrip_strip (s : Str) : lstrip (strip s) = strip s := by
  simp [strip, lstrip_idem]

theorem rstrip_strip (s : Str) : rstrip (strip s) = strip s := by
  simp only [strip]
  rw [rstrip_lstrip_comm, rstrip_idem]

theorem strip_idem (s : Str) : strip (strip s) = strip s := by
  simp only [strip]
  rw [rstrip_lstrip_comm, rstrip_idem, ← strip, lstrip_strip]

theorem strip_cons_ws {c : Char} (h : wsb c = true) (s : Str) :
    strip (c :: s) = strip s := by
  simp only [strip]
  by_cases h2 : rstrip s = []
  · simp [rstrip_cons, h2, h, lstrip]
  · simp [rstrip_cons, h2, h, lstrip, List.dropWhile_cons]

theorem strip_append_right {a b : Str} (hh : lstrip a = a) (ha : a ≠ [])
    (hb : rstrip b = b) (hbne : b ≠ []) :
    strip (a ++ b) = a ++ b := by
  simp only [strip]
  rw [rstrip_append (by rw [hb]; exact hbne), hb]
  cases a with
  | nil => exact absurd rfl ha
  | cons c a =>
    have hc : wsb c = false := by
      by_contra hcc
      simp only [Bool.not_eq_false] at hcc
      have hd : a.dropWhile wsb = c :: a := by
        simpa [lstrip, List.dropWhile_cons, hcc] using hh
      have hlen := (List.dropWhile_sublist (p := wsb) (l := a)).length_le
      rw [hd] at hlen
      simp at hlen
    simp [lstrip, List.dropWhile_cons, hc]

/-! ## Newline-freedom and line splitting -/

@[simp] theorem strip_nil : strip [] = [] := rfl

theorem NoNL_append {a b : Str} : NoNL (a ++ b) ↔ NoNL a ∧ NoNL b := by
  constructor
  · intro h
    exact ⟨fun c hc => h c (List.mem_append_left _ hc),
           fun c hc => h c (List.mem_append_right _ hc)⟩
  · rintro ⟨h1, h2⟩ c hc
    rcases List.mem_append.mp hc with hc | hc
    · exact h1 c hc
    · exact h2 c hc

theorem NoNL_cons {c : Char} {s : Str} :
    NoNL (c :: s) ↔ (c ≠ '\n' ∧ c ≠ '\r') ∧ NoNL s := by
  constructor
  · intro h
    exact ⟨h c (List.mem_cons_self _ _), fun d hd => h d (List.mem_cons_of_mem _ hd)⟩
  · rintro ⟨h1, h2⟩ d hd
    rcases List.mem_cons.mp hd with rfl | hd
    · exact h1
    · exact h2 d hd

theorem mem_rstrip {c : Char} {s : Str} (h : c ∈ rstrip s) : c ∈ s := by
  induction s with
  | nil => simp [rstrip] at h
  | cons d cs ih =>
    rw [rstrip_cons] at h
    by_cases h2 : rstrip cs = [] ∧ wsb d = true
    · simp [h2] at h
    · rw [if_neg h2] at h
      rcases List.mem_cons.mp h with rfl | h
      · exact List.mem_cons_self _ _
      · exact List.mem_cons_of_mem _ (ih h)

theorem mem_strip {c : Char} {s : Str} (h : c ∈ strip s) : c ∈ s := by
  simp only [strip, lstrip] at h
  exact mem_rstrip ((List.dropWhile_sublist _).mem h)

theorem NoNL_strip {s : Str} (h : NoNL s) : NoNL (strip s) :=
  fun c hc => h c (mem_strip hc)

theorem rstripNl_eq_self {l : Str} (h : '\n' ∉ l) : rstripNl l = l := by
  induction l with
  | nil => rfl
  | cons c cs ih =>
    have hc : c ≠ '\n' := fun hcc => h (hcc ▸ List.mem_cons_self _ _)
    have hcs : '\n' ∉ cs := fun hm => h (List.mem_cons_of_mem _ hm)
    rw [show rstripNl (c :: cs) = if rstripNl cs = [] ∧ c = '\n' then [] else c :: rstripNl cs from rfl]
    rw [ih hcs, if_neg (by rintro ⟨-, rfl⟩; exact hc rfl)]

theorem NoNL_rstripNl_eq_self {l : Str} (h : NoNL l) : rstripNl l = l :=
  rstripNl_eq_self (fun hm => (h _ hm).1 rfl)

/-- Splitting after a newline-free prefix. -/
theorem splitlines_append_nl {a : Str} (h : NoNL a) (s : Str) :
    splitlines (a ++ '\n' :: s) = a :: splitlines s := by
  induction a with
  | nil => simp [splitlines]
  | cons c cs ih =>
    have hc := (NoNL_cons.mp h).1
    have ih2 := ih (NoNL_cons.mp h).2
    rw [List.cons_append]
    rw [show splitlines (c :: (cs ++ '\n' :: s)) = match splitlines (cs ++ '\n' :: s) with
        | [] => [[c]] | l :: ls => (c :: l) :: ls from by simp [splitlines, hc.1, hc.2]]
    rw [ih2]

/-- A newline-free text is a single line (or no line at all when empty). -/
theorem splitlines_noNL {a : Str} (h : NoNL a) (hne : a ≠ []) :
    splitlines a = [a] := by
  induction a with
  | nil => exact absurd rfl hne
  | cons c cs ih =>
    have hc := (NoNL_cons.mp h).1
    rw [show splitlines (c :: cs) = match splitlines cs with
        | [] => [[c]] | l :: ls => (c :: l) :: ls from by simp [splitlines, hc.1, hc.2]]
    by_cases hcs : cs = []
    · subst hcs; rfl
    · rw [ih (NoNL_cons.mp h).2 hcs]

@[simp] theorem joinNL_nil : joinNL [] = [] := rfl

@[simp] theorem joinNL_single (l : Str) : joinNL [l] = l := rfl

theorem joinNL_cons₂ (l l2 : Str) (ls : List Str) :
    joinNL (l :: l2 :: ls) = l ++ '\n' :: joinNL (l2 :: ls) := rfl

/-- `splitlines ∘ joinNL` recovers the line list, except that one trailing
empty line is absorbed (Python `splitlines` emits no empty final line for
text ending in a newline). -/
theorem splitlines_joinNL (ls : List Str) (h : ∀ l ∈ ls, NoNL l) :
    splitlines (joinNL ls) =
      if ls.getLast? = some [] then ls.dropLast else ls := by
  induction ls with
  | nil => simp [splitlines]
  | cons l ls ih =>
    cases ls with
    | nil =>
      by_cases hl : l = []
      · subst hl; simp [splitlines]
      · rw [joinNL_single, splitlines_noNL (h l (List.mem_cons_self _ _)) hl]
        simp [List.getLast?, hl]
    | cons l2 ls2 =>
      rw [joinNL_cons₂, splitlines_append_nl (h l (List.mem_cons_self _ _))]
      rw [ih (fun x hx => h x (List.mem_cons_of_mem _ hx))]
      rw [List.getLast?_cons_cons]
      by_cases hc : (l2 :: ls2).getLast? = some []
      · rw [if_pos hc, if_pos hc]
        rfl
      · rw [if_neg hc, if_neg hc]

/-! ## Generic facts about single parser steps -/

theorem bullet2_nil : bullet2 [] = false := rfl

theorem bullet4_nil : bullet4 [] = false := rfl

set_option maxHeartbeats 1000000 in

/-- No branch of `secLine` fires on a blank line. -/
theorem secLine_blank (st : PState) (c : PSection) : secLine st c [] = st := by
  unfold secLine
  simp [begins, bullet2, bullet4]

/-- A blank line changes nothing, in every parser state. -/
theorem processLine_blank (st : PState) : processLine st [] = st := by
  unfold processLine processLine0
  rw [show rstripNl [] = [] from rfl]
  simp only [begins, Bool.false_eq_true, if_false, and_false]
  cases hc : st.cur with
  | none => rfl
  | some c => exact secLine_blank st c

theorem foldl_processLine_blank (st : PState) (ls : List Str) :
    List.foldl processLine st (ls ++ [[]]) = List.foldl processLine st ls := by
  simp [List.foldl_append, processLine_blank]

/-- Frame property of `secLine`: it never touches title, meta, or the
closed sections, and it keeps the open section's ticker. -/
theorem secLine_frame (st : PState) (c : PSection) (line : Str) (hc : st.cur = some c) :
    (secLine st c line).title = st.title ∧ (secLine st c line).meta = st.meta ∧
    (secLine st c line).secs = st.secs ∧
    ∃ c2, (secLine st c line).cur = some c2 ∧ c2.ticker = c.ticker := by
  unfold secLine
  by_cases h1 : begins (str "- Date:") line = true
  · rw [if_pos h1]; exact ⟨rfl, rfl, rfl, _, rfl, rfl⟩
  rw [if_neg h1]
  by_cases h2 : begins (str "- Close:") line = true
  · rw [if_pos h2]; exact ⟨rfl, rfl, rfl, _, rfl, rfl⟩
  rw [if_neg h2]
  by_cases h3 : begins (str "- Volume:") line = true
  · rw [if_pos h3]; exact ⟨rfl, rfl, rfl, _, rfl, rfl⟩
  rw [if_neg h3]
  by_cases h4 : begins (str "- 20D Range:") line = true
  · rw [if_pos h4]; exact ⟨rfl, rfl, rfl, _, rfl, rfl⟩
  rw [if_neg h4]
  by_cases h5 : begins (str "- News") line = true
  · rw [if_pos h5]; exact ⟨rfl, rfl, rfl, c, hc, rfl⟩
  rw [if_neg h5]
  by_cases h6 : begins (str "- AI Summary:") line = true ∨ begins (str "- Summary:") line = true
  · rw [if_pos h6]; exact ⟨rfl, rfl, rfl, c, hc, rfl⟩
  rw [if_neg h6]
  by_cases h7 : st.mode = PMode.news ∧ bullet2 line = true
  · rw [if_pos h7]; exact ⟨rfl, rfl, rfl, _, rfl, rfl⟩
  rw [if_neg h7]
  by_cases h8 : st.mode = PMode.news ∧ bullet4 line = true ∧ st.lastn = true
  · rw [if_pos h8]
    by_cases h8a : begins (str "summary:") (lowerStr (strip (line.drop 5))) = true
    · rw [if_pos h8a]; exact ⟨rfl, rfl, rfl, _, rfl, rfl⟩
    rw [if_neg h8a]
    by_cases h8b : isUrlB (strip (line.drop 5)) = true
    · rw [if_pos h8b]; exact ⟨rfl, rfl, rfl, _, rfl, rfl⟩
    · rw [if_neg h8b]; exact ⟨rfl, rfl, rfl, c, hc, rfl⟩
  rw [if_neg h8]
  by_cases h9 : st.mode = PMode.ai ∧ bullet2 line = true
  · rw [if_pos h9]; exact ⟨rfl, rfl, rfl, _, rfl, rfl⟩
  rw [if_neg h9]
  by_cases h10 : st.mode = PMode.ai ∧ strip line ≠ [] ∧ begins (str "- ") line = false
  · rw [if_pos h10]; exact ⟨rfl, rfl, rfl, _, rfl, rfl⟩
  · rw [if_neg h10]; exact ⟨rfl, rfl, rfl, c, hc, rfl⟩

/-- The title component of one parser step: every `# ` line overwrites it,
nothing else touches it. -/
theorem processLine_title (st : PState) (l : Str) :
    (processLine st l).title =
      if begins (str "# ") (rstripNl l) = true then strip ((rstripNl l).drop 2)
      else st.title := by
  unfold processLine processLine0
  by_cases h1 : begins (str "# ") (rstripNl l) = true
  · rw [if_pos h1, if_pos h1]
  rw [if_neg h1, if_neg h1]
  by_cases h2 : st.meta = [] ∧ begins (str "## ") (rstripNl l) = true
  · rw [if_pos h2]
  rw [if_neg h2]
  by_cases h3 : begins (str "### ") (rstripNl l) = true
  · rw [if_pos h3]
  rw [if_neg h3]
  cases hc : st.cur with
  | none => rfl
  | some c => exact (secLine_frame st c (rstripNl l) hc).1

/-- The meta component of one parser step. -/
theorem processLine_meta (st : PState) (l : Str) :
    (processLine st l).meta =
      if st.meta = [] ∧ begins (str "## ") (rstripNl l) = true then strip ((rstripNl l).drop 3)
      else st.meta := by
  unfold processLine processLine0
  by_cases h1 : begins (str "# ") (rstripNl l) = true
  · have h2 : begins (str "## ") (rstripNl l) = false := by
      obtain ⟨r, hr⟩ := begins_iff_append.mp h1
      rw [hr]
      simp [sHash, sMeta2]
    rw [if_pos h1, if_neg (by rw [h2]; rintro ⟨-, hx⟩; exact absurd hx (by simp))]
  rw [if_neg h1]
  by_cases h2 : st.meta = [] ∧ begins (str "## ") (rstripNl l) = true
  · rw [if_pos h2, if_pos h2]
  rw [if_neg h2, if_neg h2]
  by_cases h3 : begins (str "### ") (rstripNl l) = true
  · rw [if_pos h3]
  rw [if_neg h3]
  cases hc : st.cur with
  | none => rfl
  | some c => exact (secLine_frame st c (rstripNl l) hc).2.1

theorem begins_hdr3_not_hash {s : Str} (h : begins (str "### ") s = true) :
    begins (str "# ") s = false ∧ begins (str "## ") s = false := by
  obtain ⟨r, rfl⟩ := begins_iff_append.mp h
  simp [sHash, sMeta2, sHdr3]

/-- One parser step appends one ticker to the section trace exactly when
the line is a `### ` header, and otherwise leaves the trace unchanged. -/
theorem processLine_secTrace (st : PState) (l : Str) :
    secTrace (processLine st l) =
      secTrace st ++
        (if begins (str "### ") (rstripNl l) = true
         then [strip ((rstripNl l).drop 4)] else []) := by
  unfold processLine processLine0
  by_cases h3 : begins (str "### ") (rstripNl l) = true
  · obtain ⟨hn1, hn2⟩ := begins_hdr3_not_hash h3
    rw [if_neg (by rw [hn1]; simp), if_neg (by rw [hn2]; rintro ⟨-, hx⟩; exact absurd hx (by simp)),
        if_pos h3, if_pos h3]
    simp [secTrace, flushCur, freshSec, List.append_assoc]
  rw [if_neg h3, if_neg h3, List.append_nil]
  by_cases h1 : begins (str "# ") (rstripNl l) = true
  · rw [if_pos h1]; rfl
  rw [if_neg h1]
  by_cases h2 : st.meta = [] ∧ begins (str "## ") (rstripNl l) = true
  · rw [if_pos h2]; rfl
  rw [if_neg h2]
  cases hc : st.cur with
  | none => rfl
  | some c =>
    obtain ⟨-, -, hsecs, c2, hcur2, htk⟩ := secLine_frame st c (rstripNl l) hc
    simp [secTrace, hsecs, hcur2, hc, flushCur, htk]

/-! ## Lines that match no shape of the grammar -/

/-- A line of unknown shape is ignored in every parser state, narrative
mode included. -/
theorem processLine_unknown (st : PState) (l : Str) (h : unknownShape l) :
    processLine st l = st := by
  obtain ⟨u1, u2, u3, u4, u5, u6, u7, u8, u9, u10, u11, u12, u13⟩ := h
  unfold processLine processLine0
  rw [if_neg (by rw [u1]; simp), if_neg (by rw [u2]; rintro ⟨-, hx⟩; exact absurd hx (by simp)),
      if_neg (by rw [u3]; simp)]
  cases hc : st.cur with
  | none => rfl
  | some c =>
    show secLine st c (rstripNl l) = st
    unfold secLine
    rw [if_neg (by rw [u4]; simp), if_neg (by rw [u5]; simp), if_neg (by rw [u6]; simp),
        if_neg (by rw [u7]; simp), if_neg (by rw [u8]; simp),
        if_neg (by rw [u9, u10]; simp),
        if_neg (by rw [u11]; rintro ⟨-, hx⟩; exact absurd hx (by simp)),
        if_neg (by rw [u12]; rintro ⟨-, hx, -⟩; exact absurd hx (by simp)),
        if_neg (by rw [u11]; rintro ⟨-, hx⟩; exact absurd hx (by simp)),
        if_neg ?hcont]
    case hcont =>
      rcases u13 with h13 | h13
      · rw [h13]; rintro ⟨-, hx, -⟩; exact hx rfl
      · rw [h13]; rintro ⟨-, -, hx⟩; exact absurd hx (by simp)

/-! ## Spec-side characterizations of title, meta and section order -/

theorem foldl_processLine_title (ls : List Str) :
    ∀ st : PState, (List.foldl processLine st ls).title = lastD st.title (hashLines ls) := by
  induction ls with
  | nil => intro st; rfl
  | cons l ls ih =>
    intro st
    rw [List.foldl_cons, ih]
    by_cases h : begins (str "# ") (rstripNl l) = true
    · rw [show hashLines (l :: ls) = strip ((rstripNl l).drop 2) :: hashLines ls from by
        simp [hashLines, h, List.filterMap_cons]]
      rw [show (processLine st l).title = strip ((rstripNl l).drop 2) from by
        rw [processLine_title, if_pos h]]
      rfl
    · rw [show hashLines (l :: ls) = hashLines ls from by simp [hashLines, h, List.filterMap_cons]]
      rw [show (processLine st l).title = st.title from by rw [processLine_title, if_neg h]]

theorem foldl_processLine_meta (ls : List Str) :
    ∀ st : PState, (List.foldl processLine st ls).meta = firstNE st.meta (metaLines ls) := by
  induction ls with
  | nil => intro st; rfl
  | cons l ls ih =>
    intro st
    rw [List.foldl_cons, ih]
    by_cases h : begins (str "## ") (rstripNl l) = true
    · rw [show metaLines (l :: ls) = strip ((rstripNl l).drop 3) :: metaLines ls from by
        simp [metaLines, h, List.filterMap_cons]]
      rw [show (processLine st l).meta = if st.meta = [] then strip ((rstripNl l).drop 3) else st.meta from by
        rw [processLine_meta]
        by_cases hm : st.meta = [] <;> simp [hm, h]]
      rfl
    · rw [show metaLines (l :: ls) = metaLines ls from by simp [metaLines, h, List.filterMap_cons]]
      rw [show (processLine st l).meta = st.meta from by
        rw [processLine_meta, if_neg (by rintro ⟨-, hx⟩; exact h hx)]]

theorem foldl_processLine_secTrace (ls : List Str) :
    ∀ st : PState, secTrace (List.foldl processLine st ls) = secTrace st ++ tickersOf ls := by
  induction ls with
  | nil => intro st; simp [tickersOf]
  | cons l ls ih =>
    intro st
    rw [List.foldl_cons, ih, processLine_secTrace]
    by_cases h : begins (str "### ") (rstripNl l) = true
    · rw [show tickersOf (l :: ls) = strip ((rstripNl l).drop 4) :: tickersOf ls from by
        simp [tickersOf, h, List.filterMap_cons]]
      simp [h]
    · rw [show tickersOf (l :: ls) = tickersOf ls from by simp [tickersOf, h, List.filterMap_cons]]
      simp [h]

/-! ## Claims C3, C4, C5 -/

/-- Claim C3: a line matching no known line shape of the grammar,
inserted between two valid lines of a markup text, leaves the parsed
Report unchanged — unknown line shapes are ignored in every parser mode,
narrative mode included.  (`parse_report` is `parseLines ∘ splitlines`;
inserting the line at any position in the line list is covered.) -/
theorem c3_unknown_line_ignored (ls1 ls2 : List Str) (L : Str) (h : unknownShape L) :
    parseLines (ls1 ++ L :: ls2) = parseLines (ls1 ++ ls2) := by
  unfold parseLines
  rw [List.foldl_append, List.foldl_cons, processLine_unknown _ _ h, ← List.foldl_append]

/-- Witness for C3 at a concrete input: `- Unknown: x` has no known
shape and its insertion does not change the parse. -/
theorem c3_witness :
    unknownShape (str "- Unknown: x") ∧
    parseLines [str "### A", str "- Unknown: x", str "- Date: d"] =
      parseLines [str "### A", str "- Date: d"] :=
  ⟨by decide,
   c3_unknown_line_ignored [str "### A"] [str "- Date: d"] (str "- Unknown: x") (by decide)⟩

/-- Claim C4, amended: every single-`#` header line overwrites the title,
so the *last* `# ` line determines it (not the first); the meta line is
taken from the first `## ` line whose stripped content is nonempty,
regardless of whether a `### ` symbol header precedes it. -/
theorem c4_title_last_meta_first (ls : List Str) :
    (parseLines ls).title = lastD [] (hashLines ls) ∧
    (parseLines ls).meta = firstNE [] (metaLines ls) := by
  constructor
  · show (List.foldl processLine initState ls).title = _
    exact foldl_processLine_title ls initState
  · show (List.foldl processLine initState ls).meta = _
    exact foldl_processLine_meta ls initState

/-- Counterexample to Claim C4 as stated: a second `# ` line *does*
change the title (last occurrence wins, not first), and a `## ` line
occurring after a `### ` symbol header *does* set the meta line. -/
theorem c4_counterexample :
    (parseLines [str "# A", str "# B"]).title = str "B" ∧
    (parseLines [str "### S", str "## M"]).meta = str "M" := by decide

/-- Claim C5, amended: the parsed sections are kept as an ordered
sequence keyed by position, one section per `### ` line in declaration
order; duplicate-symbol blocks are neither merged nor overridden — no
"last block wins" happens during parse. -/
theorem c5_sections_positional (ls : List Str) :
    (parseLines ls).sections.map PSection.ticker = tickersOf ls := by
  show ((List.foldl processLine initState ls).secs ++
      flushCur (List.foldl processLine initState ls).cur).map PSection.ticker = _
  exact (foldl_processLine_secTrace ls initState).trans (by simp [secTrace, initState, flushCur, tickersOf])

/-- Counterexample to the "last-declared block with a given symbol wins"
part of Claim C5: two `### A` blocks survive as two separate sections and
the first block's data is not overridden by the second. -/
theorem c5_counterexample :
    (parseLines [str "### A", str "- Date: 1", str "### A", str "- Date: 2"]).sections =
      [⟨str "A", some (str "1"), none, none, none, [], []⟩,
       ⟨str "A", some (str "2"), none, none, none, [], []⟩] := by decide

/-! ## Concrete sample data shared by the witnesses -/

theorem le_foldl_max (cs : List ℚ) : ∀ a : ℚ, a ≤ cs.foldl max a := by
  induction cs with
  | nil => intro a; exact le_refl a
  | cons c cs ih => intro a; exact le_trans (le_max_left a c) (ih (max a c))

theorem foldl_min_le (cs : List ℚ) : ∀ a : ℚ, cs.foldl min a ≤ a := by
  induction cs with
  | nil => intro a; exact le_refl a
  | cons c cs ih => intro a; exact le_trans (ih (min a c)) (min_le_left a c)

/-- Claim C2: for every symbol with at least one price sample, the
computed range position lies in `[0, 1]` whenever the 20-sample window's
high differs from its low, and equals exactly `0.5` when they coincide;
the latest close is the head of the window, so the division can never
leave `[0, 1]`. -/
theorem c2_range_position_bounds (t : TickerData) (ri : RangeInfo)
    (h : ri = rangeOf (closesOf t) t.price0.close) :
    (ri.hi ≠ ri.lo → 0 ≤ ri.pos ∧ ri.pos ≤ 1) ∧ (ri.hi = ri.lo → ri.pos = 1/2) := by
  have hcl : closesOf t = t.price0.close :: (t.priceRest.take 19).map (fun r => r.close) := by
    simp [closesOf, prices, List.take_succ_cons]
  rw [hcl] at h
  set rest := (t.priceRest.take 19).map (fun r => r.close) with hrest
  set c1 := t.price0.close with hc1
  set L := rest.foldl min c1 with hL
  set H := rest.foldl max c1 with hH
  have hlo : ri.lo = L := by rw [h]; simp [rangeOf]
  have hhi : ri.hi = H := by rw [h]; simp [rangeOf]
  have hloc : L ≤ c1 := foldl_min_le rest c1
  have hc1h : c1 ≤ H := le_foldl_max rest c1
  constructor
  · intro hne
    have hne2 : H ≠ L := by rw [← hhi, ← hlo]; exact hne
    have hpos : ri.pos = (c1 - L) / (H - L) := by
      rw [h]
      simp [rangeOf, if_pos hne2]
    have hlt : L < H := lt_of_le_of_ne (le_trans hloc hc1h) (fun e => hne2 e.symm)
    have hden : (0:ℚ) < H - L := by linarith
    constructor
    · rw [hpos]
      exact div_nonneg (by linarith) (le_of_lt hden)
    · rw [hpos, div_le_one hden]
      linarith
  · intro heq
    have heq2 : ¬ H ≠ L := by rw [← hhi, ← hlo]; exact fun hx => hx heq
    rw [h]
    simp [rangeOf, if_neg heq2]

unseal Rat.sub Rat.mul Rat.inv Rat.add in
/-- Witness for C2 at concrete inputs: a non-degenerate window
(closes 12 and 10) gives a position inside `[0, 1]`, a degenerate window
gives exactly `0.5`. -/
theorem c2_witness :
    (0 ≤ (rangeOf (closesOf tSample) tSample.price0.close).pos ∧
      (rangeOf (closesOf tSample) tSample.price0.close).pos ≤ 1) ∧
    (rangeOf (closesOf tFlat) tFlat.price0.close).pos = 1/2 :=
  ⟨(c2_range_position_bounds tSample _ rfl).1 (by decide),
   (c2_range_position_bounds tFlat _ rfl).2 (by decide)⟩

/-! ## Claim C10: zero prior close -/

/-- Claim C10: when the prior close is `0`, the `if c0` guard of
generate_report.py line 51 routes the percent change to exactly `0.0`
instead of dividing by zero; the fallible mirror of the division never
raises, and the rendered percent is `+0.00`. -/
theorem c10_zero_prior_close (t : TickerData) (r : PriceRow) (rs : List PriceRow)
    (h : t.priceRest = r :: rs) (hz : r.close = 0) :
    pctOfT t = some 0 ∧ pctE r.close t.price0.close = Except.ok 0 ∧
    pctOf r.close t.price0.close = 0 ∧
    fmtPlus2 (pctOf r.close t.price0.close) = str "+0.00" := by
  have hp : pctOf r.close t.price0.close = 0 := by simp [pctOf, hz]
  refine ⟨?_, ?_, hp, ?_⟩
  · simp [pctOfT, h, hp]
  · simp [pctE, hz]
  · rw [hp]
    decide

/-- Witness for C10 at a concrete input (prior close `0`, latest `5`). -/
theorem c10_witness :
    pctOfT tZero = some 0 ∧
    pctE (0:ℚ) 5 = Except.ok 0 ∧ pctOf (0:ℚ) 5 = 0 ∧ fmtPlus2 (pctOf (0:ℚ) 5) = str "+0.00" :=
  c10_zero_prior_close tZero ⟨str "2026-01-10", 0, some 1⟩ [] rfl rfl

/-! ## Claim C7: single-sample placeholder -/

/-- Claim C7: a symbol with exactly one price sample gets `pct = None`,
its key-value area is the single `- Latest:` line (no percent figure),
and its summary slot is the explicit needs-more-data placeholder; the
section is still fully emitted (no crash, no numeric artifact). -/
theorem c7_single_sample_placeholder (fmtTs : Str → Str) (sfn : SumCtx → Except Str Str)
    (rd : Str) (t : TickerData) (h : t.priceRest = []) :
    pctOfT t = none ∧
    genSection fmtTs sfn rd t =
      (str "### " ++ t.ticker) ::
        [str "- Latest: " ++ t.price0.date ++ str " | Close: " ++ fmt2 t.price0.close ++
         str " | Vol: " ++ fmtComma (t.price0.volume.getD 0)] ++
        (str "- News (headline + summary):" :: newsLinesOf fmtTs t.news) ++
        [rangeLine t, str "- Summary:"] ++
        [str "  - (need at least 2 trading days of price data)"] ++ [[]] := by
  constructor
  · unfold pctOfT
    rw [h]
  · unfold genSection kvLines sumLines
    rw [h]

/-- Witness for C7 at a concrete one-sample input. -/
theorem c7_witness :
    pctOfT tSingle = none ∧
    genSection (fun s => s) sfnOk (str "rd") tSingle =
      (str "### " ++ tSingle.ticker) ::
        [str "- Latest: " ++ tSingle.price0.date ++ str " | Close: " ++ fmt2 tSingle.price0.close ++
         str " | Vol: " ++ fmtComma (tSingle.price0.volume.getD 0)] ++
        (str "- News (headline + summary):" :: newsLinesOf (fun s => s) tSingle.news) ++
        [rangeLine tSingle, str "- Summary:"] ++
        [str "  - (need at least 2 trading days of price data)"] ++ [[]] :=
  c7_single_sample_placeholder (fun s => s) sfnOk (str "rd") tSingle rfl

/-! ## Claim C6: section line order -/

/-- Claim C6, amended: for a symbol with at least two price samples the
serializer emits, in order: the `- Date:`/`- Close:`/`- Volume:` lines,
then the `- News (headline + summary):` block, then the `- 20D Range:`
line, then the `- Summary:` block — i.e. the 20D-Range line *follows*
the News block (it does not precede it). -/
theorem c6_volume_news_range_order (fmtTs : Str → Str) (sfn : SumCtx → Except Str Str)
    (rd : Str) (t : TickerData) (r : PriceRow) (rs : List PriceRow)
    (h : t.priceRest = r :: rs) :
    genSection fmtTs sfn rd t =
      (str "### " ++ t.ticker) ::
        [str "- Date: " ++ r.date ++ str " → " ++ t.price0.date,
         str "- Close: " ++ fmt2 r.close ++ str " → " ++ fmt2 t.price0.close ++
           str " (" ++ fmtPlus2 (pctOf r.close t.price0.close) ++ str "%)",
         str "- Volume: " ++ fmtComma (t.price0.volume.getD 0)] ++
        (str "- News (headline + summary):" :: newsLinesOf fmtTs t.news) ++
        [rangeLine t, str "- Summary:"] ++
        sumLines fmtTs sfn rd t ++ [[]] := by
  unfold genSection kvLines
  rw [h]

unseal Rat.sub Rat.mul Rat.inv Rat.add in
/-- Counterexample to Claim C6 as stated: on a concrete two-sample
symbol the emitted section places the `- News (headline + summary):`
block (indices 4–5) *before* the `- 20D Range:` line (index 6); the
grammar order claimed by the spec (Volume, then 20D Range, then News)
does not match the emission order. -/
theorem c6_counterexample :
    genSection (fun s => s) sfnOk (str "rd") tSample =
      [str "### ACME",
       str "- Date: 2026-01-10 → 2026-01-11",
       str "- Close: 10.00 → 12.00 (+20.00%)",
       str "- Volume: 100,000",
       str "- News (headline + summary):",
       str "  - (no recent news)",
       str "- 20D Range: low 10.00, high 12.00, position 1.00",
       str "- Summary:",
       str "  - Steady close.",
       []] := by decide

/-- Witness for the amended C6 at a concrete input. -/
theorem c6_witness :
    genSection (fun s => s) sfnOk (str "rd") tSample =
      (str "### " ++ tSample.ticker) ::
        [str "- Date: " ++ (str "2026-01-10") ++ str " → " ++ tSample.price0.date,
         str "- Close: " ++ fmt2 10 ++ str " → " ++ fmt2 tSample.price0.close ++
           str " (" ++ fmtPlus2 (pctOf 10 tSample.price0.close) ++ str "%)",
         str "- Volume: " ++ fmtComma (tSample.price0.volume.getD 0)] ++
        (str "- News (headline + summary):" :: newsLinesOf (fun s => s) tSample.news) ++
        [rangeLine tSample, str "- Summary:"] ++
        sumLines (fun s => s) sfnOk (str "rd") tSample ++ [[]] :=
  c6_volume_news_range_order (fun s => s) sfnOk (str "rd") tSample
    ⟨str "2026-01-10", 10, some 90000⟩ [] rfl

/-! ## Claim C9: narrative degradation -/

/-- Claim C9: a per-symbol narrative failure degrades to an inline
`(Error: <message>)` line in that symbol's narrative slot only.  Part 1:
a section depends on the collaborator only through calls for its own
ticker, so a collaborator that fails for symbol X only leaves every other
symbol's section exactly as a healthy collaborator would.  Part 2: when
the collaborator raises for this symbol, the section is still fully
emitted, with the inline error placeholder as its narrative bullet.
Part 3: the run is not aborted — the report still maps over every
ticker. -/
theorem c9_narrative_degradation (fmtTs : Str → Str) (sfn1 sfn2 : SumCtx → Except Str Str)
    (rd : Str) (t : TickerData) (msg : Str) (r : PriceRow) (rs : List PriceRow) :
    ((∀ a : SumCtx, a.ticker = t.ticker → sfn1 a = sfn2 a) →
      genSection fmtTs sfn1 rd t = genSection fmtTs sfn2 rd t) ∧
    (t.priceRest = r :: rs → sfn1 (mkCtx fmtTs rd t r) = Except.error msg →
      genSection fmtTs sfn1 rd t =
        (str "### " ++ t.ticker) :: kvLines t ++
          (str "- News (headline + summary):" :: newsLinesOf fmtTs t.news) ++
          [rangeLine t, str "- Summary:"] ++
          [str "  - (Error: " ++ msg ++ str ")"] ++ [[]]) ∧
    (∀ (now : Str) (db : List TickerData),
      generateLines fmtTs sfn1 now db =
        (str "# Daily Market Report (" ++ reportDate now db ++ str ")" ++ ['\n']) ::
          (db.map (genSection fmtTs sfn1 (reportDate now db))).flatten) := by
  refine ⟨?_, ?_, fun _ _ => rfl⟩
  · intro hagree
    unfold genSection sumLines
    cases hpr : t.priceRest with
    | nil => rfl
    | cons r2 rs2 =>
      dsimp only
      rw [hagree (mkCtx fmtTs rd t r2) rfl]
  · intro hpr herr
    unfold genSection sumLines
    rw [hpr]
    dsimp only
    rw [herr]

/-- Witness for C9 at concrete inputs: an always-failing collaborator
produces the inline error line for the failing symbol, and a section of a
different symbol is identical under a collaborator that only differs away
from that symbol's ticker. -/
theorem c9_witness :
    genSection (fun s => s) sfnBoom (str "rd") tSample =
      (str "### " ++ tSample.ticker) :: kvLines tSample ++
        (str "- News (headline + summary):" :: newsLinesOf (fun s => s) tSample.news) ++
        [rangeLine tSample, str "- Summary:"] ++
        [str "  - (Error: " ++ str "boom" ++ str ")"] ++ [[]] :=
  (c9_narrative_degradation (fun s => s) sfnBoom sfnOk (str "rd") tSample (str "boom")
    ⟨str "2026-01-10", 10, some 90000⟩ []).2.1 rfl rfl

/-! ## Claim C8: the parser is total

The raising points of `parse_report` are the `line.split(":", 1)[1]`
index accesses (export_report_pdf.py lines 95, 98, 101, 104, 128); every
other operation of the loop is total.  `secLineE`/`processLineE` mirror
the loop with those accesses made fallible; proving the mirror always
returns `Except.ok` of the total parser's state shows the guards make the
accesses safe, i.e. the parser never raises. -/

theorem tailColonE_of_colon_mem {s : Str} (h : ':' ∈ s) :
    tailColonE s = Except.ok (tailColon s) := by
  induction s with
  | nil => cases h
  | cons c cs ih =>
    by_cases hc : c = ':'
    · subst hc
      simp [tailColonE, tailColon, List.dropWhile_cons]
    · have hcb : (!(c == ':')) = true := by simp [hc]
      have hmem : ':' ∈ cs := by
        rcases List.mem_cons.mp h with he | hm
        · exact absurd he.symm hc
        · exact hm
      have h1 : tailColonE (c :: cs) = tailColonE cs := by
        simp [tailColonE, List.dropWhile_cons, hcb]
      have h2 : tailColon (c :: cs) = tailColon cs := by
        simp [tailColon, List.dropWhile_cons, hcb]
      rw [h1, h2, ih hmem]

theorem colon_mem_of_begins {p s : Str} (h : begins p s = true) (hc : ':' ∈ p) : ':' ∈ s := by
  obtain ⟨r, rfl⟩ := begins_iff_append.mp h
  exact List.mem_append_left r hc

theorem lowerChar_eq_colon {c : Char} (h : lowerChar c = ':') : c = ':' := by
  unfold lowerChar at h
  split at h <;> simp_all

theorem colon_mem_of_lower {s : Str} (h : begins (str "summary:") (lowerStr s) = true) :
    ':' ∈ s := by
  obtain ⟨r, hr⟩ := begins_iff_append.mp h
  have hm : ':' ∈ lowerStr s := by
    rw [hr]
    exact List.mem_append_left r (by rw [sSumLow]; simp)
  obtain ⟨c, hcs, hlc⟩ := List.mem_map.mp hm
  rwa [lowerChar_eq_colon hlc] at hcs

theorem secLineE_eq_ok (st : PState) (c : PSection) (line : Str) :
    secLineE st c line = Except.ok (secLine st c line) := by
  unfold secLineE secLine
  by_cases h1 : begins (str "- Date:") line = true
  · rw [if_pos h1, if_pos h1, tailColonE_of_colon_mem (colon_mem_of_begins h1 (by rw [sDateP]; simp))]
    rfl
  rw [if_neg h1, if_neg h1]
  by_cases h2 : begins (str "- Close:") line = true
  · rw [if_pos h2, if_pos h2, tailColonE_of_colon_mem (colon_mem_of_begins h2 (by rw [sCloseP]; simp))]
    rfl
  rw [if_neg h2, if_neg h2]
  by_cases h3 : begins (str "- Volume:") line = true
  · rw [if_pos h3, if_pos h3, tailColonE_of_colon_mem (colon_mem_of_begins h3 (by rw [sVolP]; simp))]
    rfl
  rw [if_neg h3, if_neg h3]
  by_cases h4 : begins (str "- 20D Range:") line = true
  · rw [if_pos h4, if_pos h4, tailColonE_of_colon_mem (colon_mem_of_begins h4 (by rw [sRangeP]; simp))]
    rfl
  rw [if_neg h4, if_neg h4]
  by_cases h5 : begins (str "- News") line = true
  · rw [if_pos h5, if_pos h5]
  rw [if_neg h5, if_neg h5]
  by_cases h6 : begins (str "- AI Summary:") line = true ∨ begins (str "- Summary:") line = true
  · rw [if_pos h6, if_pos h6]
  rw [if_neg h6, if_neg h6]
  by_cases h7 : st.mode = PMode.news ∧ bullet2 line = true
  · rw [if_pos h7, if_pos h7]
  rw [if_neg h7, if_neg h7]
  by_cases h8 : st.mode = PMode.news ∧ bullet4 line = true ∧ st.lastn = true
  · rw [if_pos h8, if_pos h8]
    by_cases h8a : begins (str "summary:") (lowerStr (strip (line.drop 5))) = true
    · rw [if_pos h8a, if_pos h8a, tailColonE_of_colon_mem (colon_mem_of_lower h8a)]
      rfl
    rw [if_neg h8a, if_neg h8a]
    by_cases h8b : isUrlB (strip (line.drop 5)) = true
    · rw [if_pos h8b, if_pos h8b]
    · rw [if_neg h8b, if_neg h8b]
  rw [if_neg h8, if_neg h8]
  by_cases h9 : st.mode = PMode.ai ∧ bullet2 line = true
  · rw [if_pos h9, if_pos h9]
  rw [if_neg h9, if_neg h9]
  by_cases h10 : st.mode = PMode.ai ∧ strip line ≠ [] ∧ begins (str "- ") line = false
  · rw [if_pos h10, if_pos h10]
  · rw [if_neg h10, if_neg h10]

theorem processLineE_eq_ok (st : PState) (raw : Str) :
    processLineE st raw = Except.ok (processLine st raw) := by
  unfold processLineE processLine processLine0E processLine0
  by_cases h1 : begins (str "# ") (rstripNl raw) = true
  · rw [if_pos h1, if_pos h1]
  rw [if_neg h1, if_neg h1]
  by_cases h2 : st.meta = [] ∧ begins (str "## ") (rstripNl raw) = true
  · rw [if_pos h2, if_pos h2]
  rw [if_neg h2, if_neg h2]
  by_cases h3 : begins (str "### ") (rstripNl raw) = true
  · rw [if_pos h3, if_pos h3]
  rw [if_neg h3, if_neg h3]
  cases hc : st.cur with
  | none => rfl
  | some c => exact secLineE_eq_ok st c (rstripNl raw)

theorem foldlM_processLineE_eq_ok (ls : List Str) :
    ∀ st : PState, ls.foldlM processLineE st = Except.ok (ls.foldl processLine st) := by
  induction ls with
  | nil => intro st; rfl
  | cons l ls ih =>
    intro st
    rw [List.foldlM_cons, processLineE_eq_ok]
    show (ls.foldlM processLineE (processLine st l)) = _
    rw [ih, List.foldl_cons]

/-- Claim C8: for every input text, arbitrarily malformed included, the
parser returns a Report and never raises: the fallible mirror of
`parse_report` (with the guarded `split(":", 1)[1]` accesses modelled as
raising on a missing colon) always returns `Except.ok` of the total
parser's result — the parser degrades by omission, not by failure. -/
theorem c8_parser_never_raises (s : Str) :
    parse_reportE s = Except.ok (parse_report s) := by
  unfold parse_reportE parse_report parseLinesE parseLines
  rw [foldlM_processLineE_eq_ok]
  rfl

/-! ## Evaluating line-shape tests on emitted lines -/

/-- A prefix test on `a ++ x` only looks at `a` when `p` fits inside
`a`. -/
theorem begins_append_of_le (p a x : Str) (h : p.length ≤ a.length) :
    begins p (a ++ x) = begins p a := by
  induction p generalizing a with
  | nil => simp
  | cons c p ih =>
    cases a with
    | nil => simp at h
    | cons d a =>
      simp only [List.cons_append, begins_cons_cons]
      rw [ih a (by simpa using h)]

/-- A prefix test on `a ++ x` only looks at `a` when `a` is not a prefix
of the tested pattern `p` (then either the test already fails inside `a`,
or `p` is a proper prefix of `a` and the test already holds). -/
theorem begins_append_of_not_rev (p a x : Str) (h : begins a p = false) :
    begins p (a ++ x) = begins p a := by
  induction p generalizing a with
  | nil =>
    cases a with
    | nil => simp at h
    | cons d a => simp
  | cons c p ih =>
    cases a with
    | nil => simp at h
    | cons d a =>
      simp only [List.cons_append, begins_cons_cons]
      by_cases hcd : c = d
      · subst hcd
        simp only [begins_cons_cons, beq_self_eq_true, Bool.true_and] at h
        simp [ih a h]
      · have : (c == d) = false := by simp [hcd]
        simp [this]

/-- `bullet4` is false whenever the third character is not whitespace,
whatever follows. -/
theorem bullet4_char3 (c1 c2 c3 c4 : Char) (rest : Str) (h : wsb c3 = false) :
    bullet4 (c1 :: c2 :: c3 :: c4 :: rest) = false := by
  rcases rest with - | ⟨e, - | ⟨f, r⟩⟩ <;> simp [bullet4, h]

/-- `bullet2` only looks at the first four characters. -/
theorem bullet2_cons4 (c1 c2 c3 c4 : Char) (rest : Str) :
    bullet2 (c1 :: c2 :: c3 :: c4 :: rest) = (wsb c1 && wsb c2 && (c3 == '-') && wsb c4) := rfl

/-! ## Step evaluation of the parser on each emitted line shape -/

theorem step_hdr (T M : Str) (S : List PSection) (cur : Option PSection) (m : PMode)
    (ln : Bool) (tk : Str) :
    processLine0 ⟨T, M, S, cur, m, ln⟩ (str "### " ++ tk) =
      ⟨T, M, S ++ flushCur cur, some (freshSec (strip tk)), PMode.off, false⟩ := by
  have e1 : begins (str "# ") (str "### " ++ tk) = false := by
    rw [begins_append_of_le _ _ _ (by decide)]; decide
  have e2 : begins (str "## ") (str "### " ++ tk) = false := by
    rw [begins_append_of_le _ _ _ (by decide)]; decide
  have e3 : begins (str "### ") (str "### " ++ tk) = true := by
    rw [begins_append_of_le _ _ _ (by decide)]; decide
  have e4 : (str "### " ++ tk).drop 4 = tk := by simp [sHdr3]
  simp [processLine0, e1, e2, e3, e4]

theorem step_date (T M : Str) (S : List PSection) (c : PSection) (m : PMode)
    (ln : Bool) (x : Str) :
    processLine0 ⟨T, M, S, some c, m, ln⟩ (str "- Date: " ++ x) =
      ⟨T, M, S, some { c with kvDate := some (strip x) }, m, ln⟩ := by
  have e1 : begins (str "# ") (str "- Date: " ++ x) = false := by
    rw [begins_append_of_le _ _ _ (by decide)]; decide
  have e2 : begins (str "## ") (str "- Date: " ++ x) = false := by
    rw [begins_append_of_le _ _ _ (by decide)]; decide
  have e3 : begins (str "### ") (str "- Date: " ++ x) = false := by
    rw [begins_append_of_le _ _ _ (by decide)]; decide
  have e4 : begins (str "- Date:") (str "- Date: " ++ x) = true := by
    rw [begins_append_of_le _ _ _ (by decide)]; decide
  have ev : strip (tailColon (str "- Date: " ++ x)) = strip x := by
    simp [tailColon, sDateKV, List.dropWhile_cons, strip_cons_ws]
  simp [processLine0, secLine, e1, e2, e3, e4, ev]

theorem step_close (T M : Str) (S : List PSection) (c : PSection) (m : PMode)
    (ln : Bool) (x : Str) :
    processLine0 ⟨T, M, S, some c, m, ln⟩ (str "- Close: " ++ x) =
      ⟨T, M, S, some { c with kvClose := some (strip x) }, m, ln⟩ := by
  have e1 : begins (str "# ") (str "- Close: " ++ x) = false := by
    rw [begins_append_of_le _ _ _ (by decide)]; decide
  have e2 : begins (str "## ") (str "- Close: " ++ x) = false := by
    rw [begins_append_of_le _ _ _ (by decide)]; decide
  have e3 : begins (str "### ") (str "- Close: " ++ x) = false := by
    rw [begins_append_of_le _ _ _ (by decide)]; decide
  have e4 : begins (str "- Date:") (str "- Close: " ++ x) = false := by
    rw [begins_append_of_le _ _ _ (by decide)]; decide
  have e5 : begins (str "- Close:") (str "- Close: " ++ x) = true := by
    rw [begins_append_of_le _ _ _ (by decide)]; decide
  have ev : strip (tailColon (str "- Close: " ++ x)) = strip x := by
    simp [tailColon, sCloseKV, List.dropWhile_cons, strip_cons_ws]
  simp [processLine0, secLine, e1, e2, e3, e4, e5, ev]

theorem step_volume (T M : Str) (S : List PSection) (c : PSection) (m : PMode)
    (ln : Bool) (x : Str) :
    processLine0 ⟨T, M, S, some c, m, ln⟩ (str "- Volume: " ++ x) =
      ⟨T, M, S, some { c with kvVol := some (strip x) }, m, ln⟩ := by
  have e1 : begins (str "# ") (str "- Volume: " ++ x) = false := by
    rw [begins_append_of_le _ _ _ (by decide)]; decide
  have e2 : begins (str "## ") (str "- Volume: " ++ x) = false := by
    rw [begins_append_of_le _ _ _ (by decide)]; decide
  have e3 : begins (str "### ") (str "- Volume: " ++ x) = false := by
    rw [begins_append_of_le _ _ _ (by decide)]; decide
  have e4 : begins (str "- Date:") (str "- Volume: " ++ x) = false := by
    rw [begins_append_of_le _ _ _ (by decide)]; decide
  have e5 : begins (str "- Close:") (str "- Volume: " ++ x) = false := by
    rw [begins_append_of_le _ _ _ (by decide)]; decide
  have e6 : begins (str "- Volume:") (str "- Volume: " ++ x) = true := by
    rw [begins_append_of_le _ _ _ (by decide)]; decide
  have ev : strip (tailColon (str "- Volume: " ++ x)) = strip x := by
    simp [tailColon, sVolKV, List.dropWhile_cons, strip_cons_ws]
  simp [processLine0, secLine, e1, e2, e3, e4, e5, e6, ev]

theorem step_range (T M : Str) (S : List PSection) (c : PSection) (m : PMode)
    (ln : Bool) (x : Str) :
    processLine0 ⟨T, M, S, some c, m, ln⟩ (str "- 20D Range: low " ++ x) =
      ⟨T, M, S, some { c with kvRange := some (strip (str "low " ++ x)) }, m, ln⟩ := by
  have e1 : begins (str "# ") (str "- 20D Range: low " ++ x) = false := by
    rw [begins_append_of_le _ _ _ (by decide)]; decide
  have e2 : begins (str "## ") (str "- 20D Range: low " ++ x) = false := by
    rw [begins_append_of_le _ _ _ (by decide)]; decide
  have e3 : begins (str "### ") (str "- 20D Range: low " ++ x) = false := by
    rw [begins_append_of_le _ _ _ (by decide)]; decide
  have e4 : begins (str "- Date:") (str "- 20D Range: low " ++ x) = false := by
    rw [begins_append_of_le _ _ _ (by decide)]; decide
  have e5 : begins (str "- Close:") (str "- 20D Range: low " ++ x) = false := by
    rw [begins_append_of_le _ _ _ (by decide)]; decide
  have e6 : begins (str "- Volume:") (str "- 20D Range: low " ++ x) = false := by
    rw [begins_append_of_le _ _ _ (by decide)]; decide
  have e7 : begins (str "- 20D Range:") (str "- 20D Range: low " ++ x) = true := by
    rw [begins_append_of_le _ _ _ (by decide)]; decide
  have ev : strip (tailColon (str "- 20D Range: low " ++ x)) = strip (str "low " ++ x) := by
    simp [tailColon, sRangeLow, sLow, List.dropWhile_cons, strip_cons_ws]
  simp [processLine0, secLine, e1, e2, e3, e4, e5, e6, e7, ev]

theorem step_news_hdr (T M : Str) (S : List PSection) (c : PSection) (m : PMode)
    (ln : Bool) :
    processLine0 ⟨T, M, S, some c, m, ln⟩ (str "- News (headline + summary):") =
      ⟨T, M, S, some c, PMode.news, false⟩ := by
  simp [processLine0, secLine, show begins (str "# ") (str "- News (headline + summary):") = false from by decide,
    show begins (str "## ") (str "- News (headline + summary):") = false from by decide,
    show begins (str "### ") (str "- News (headline + summary):") = false from by decide,
    show begins (str "- Date:") (str "- News (headline + summary):") = false from by decide,
    show begins (str "- Close:") (str "- News (headline + summary):") = false from by decide,
    show begins (str "- Volume:") (str "- News (headline + summary):") = false from by decide,
    show begins (str "- 20D Range:") (str "- News (headline + summary):") = false from by decide,
    show begins (str "- News") (str "- News (headline + summary):") = true from by decide]

theorem step_sum_hdr (T M : Str) (S : List PSection) (c : PSection) (m : PMode)
    (ln : Bool) :
    processLine0 ⟨T, M, S, some c, m, ln⟩ (str "- Summary:") =
      ⟨T, M, S, some c, PMode.ai, ln⟩ := by
  simp [processLine0, secLine, show begins (str "# ") (str "- Summary:") = false from by decide,
    show begins (str "## ") (str "- Summary:") = false from by decide,
    show begins (str "### ") (str "- Summary:") = false from by decide,
    show begins (str "- Date:") (str "- Summary:") = false from by decide,
    show begins (str "- Close:") (str "- Summary:") = false from by decide,
    show begins (str "- Volume:") (str "- Summary:") = false from by decide,
    show begins (str "- 20D Range:") (str "- Summary:") = false from by decide,
    show begins (str "- News") (str "- Summary:") = false from by decide,
    show begins (str "- AI Summary:") (str "- Summary:") = false from by decide,
    show begins (str "- Summary:") (str "- Summary:") = true from by decide]

theorem step_news_item (T M : Str) (S : List PSection) (c : PSection) (ln : Bool) (d : Str) :
    processLine0 ⟨T, M, S, some c, PMode.news, ln⟩ (str "  - " ++ d) =
      ⟨T, M, S, some { c with news := c.news ++ [⟨strip d, [], []⟩] }, PMode.news, true⟩ := by
  have e1 : begins (str "# ") (str "  - " ++ d) = false := by
    rw [begins_append_of_le _ _ _ (by decide)]; decide
  have e2 : begins (str "## ") (str "  - " ++ d) = false := by
    rw [begins_append_of_le _ _ _ (by decide)]; decide
  have e3 : begins (str "### ") (str "  - " ++ d) = false := by
    rw [begins_append_of_le _ _ _ (by decide)]; decide
  have e4 : begins (str "- Date:") (str "  - " ++ d) = false := by
    rw [begins_append_of_not_rev _ _ _ (by decide)]; decide
  have e5 : begins (str "- Close:") (str "  - " ++ d) = false := by
    rw [begins_append_of_not_rev _ _ _ (by decide)]; decide
  have e6 : begins (str "- Volume:") (str "  - " ++ d) = false := by
    rw [begins_append_of_not_rev _ _ _ (by decide)]; decide
  have e7 : begins (str "- 20D Range:") (str "  - " ++ d) = false := by
    rw [begins_append_of_not_rev _ _ _ (by decide)]; decide
  have e8 : begins (str "- News") (str "  - " ++ d) = false := by
    rw [begins_append_of_not_rev _ _ _ (by decide)]; decide
  have e9 : begins (str "- AI Summary:") (str "  - " ++ d) = false := by
    rw [begins_append_of_not_rev _ _ _ (by decide)]; decide
  have e10 : begins (str "- Summary:") (str "  - " ++ d) = false := by
    rw [begins_append_of_not_rev _ _ _ (by decide)]; decide
  have e11 : bullet2 (str "  - " ++ d) = true := by
    rw [sBul2]
    simp [bullet2_cons4, wsb]
  have e12 : (str "  - " ++ d).drop 3 = ' ' :: d := by simp [sBul2]
  simp [processLine0, secLine, e1, e2, e3, e4, e5, e6, e7, e8, e9, e10, e11, e12,
    strip_cons_ws]

theorem step_news_summary (T M : Str) (S : List PSection) (c : PSection) (sm : Str)
    (hst : strip sm = sm) (hne : sm ≠ []) :
    processLine0 ⟨T, M, S, some c, PMode.news, true⟩ (str "    - Summary: " ++ sm) =
      ⟨T, M, S, some { c with news := setLast (fun it => { it with summary := sm }) c.news },
       PMode.news, true⟩ := by
  have hr : rstrip sm = sm := by
    have := rstrip_strip sm
    rwa [hst] at this
  have e1 : begins (str "# ") (str "    - Summary: " ++ sm) = false := by
    rw [begins_append_of_le _ _ _ (by decide)]; decide
  have e2 : begins (str "## ") (str "    - Summary: " ++ sm) = false := by
    rw [begins_append_of_le _ _ _ (by decide)]; decide
  have e3 : begins (str "### ") (str "    - Summary: " ++ sm) = false := by
    rw [begins_append_of_le _ _ _ (by decide)]; decide
  have e4 : begins (str "- Date:") (str "    - Summary: " ++ sm) = false := by
    rw [begins_append_of_le _ _ _ (by decide)]; decide
  have e5 : begins (str "- Close:") (str "    - Summary: " ++ sm) = false := by
    rw [begins_append_of_le _ _ _ (by decide)]; decide
  have e6 : begins (str "- Volume:") (str "    - Summary: " ++ sm) = false := by
    rw [begins_append_of_le _ _ _ (by decide)]; decide
  have e7 : begins (str "- 20D Range:") (str "    - Summary: " ++ sm) = false := by
    rw [begins_append_of_le _ _ _ (by decide)]; decide
  have e8 : begins (str "- News") (str "    - Summary: " ++ sm) = false := by
    rw [begins_append_of_le _ _ _ (by decide)]; decide
  have e9 : begins (str "- AI Summary:") (str "    - Summary: " ++ sm) = false := by
    rw [begins_append_of_le _ _ _ (by decide)]; decide
  have e10 : begins (str "- Summary:") (str "    - Summary: " ++ sm) = false := by
    rw [begins_append_of_le _ _ _ (by decide)]; decide
  have e11 : bullet2 (str "    - Summary: " ++ sm) = false := by
    rw [sBulSum]
    simp [bullet2_cons4, wsb]
  have e12 : bullet4 (str "    - Summary: " ++ sm) = true := by
    rw [sBulSum]
    simp [bullet4, wsb]
  have etxt : strip ((str "    - Summary: " ++ sm).drop 5) = str "Summary: " ++ sm := by
    rw [sBulSum]
    simp only [List.cons_append, List.drop_succ_cons, List.drop_zero, List.nil_append]
    rw [strip_cons_ws (by decide)]
    rw [show ('S' :: 'u' :: 'm' :: 'm' :: 'a' :: 'r' :: 'y' :: ':' :: ' ' :: sm : Str) =
      str "Summary: " ++ sm from by simp [sSumColSp]]
    rw [strip_append_right (by decide) (by decide) hr hne]
  have elow : begins (str "summary:") (lowerStr (str "Summary: " ++ sm)) = true := by
    show begins (str "summary:") (List.map lowerChar (str "Summary: " ++ sm)) = true
    rw [List.map_append]
    rw [show List.map lowerChar (str "Summary: ") = str "summary: " from by decide]
    rw [begins_append_of_le _ _ _ (by decide)]
    decide
  have esum : strip (tailColon (str "Summary: " ++ sm)) = sm := by
    rw [show tailColon (str "Summary: " ++ sm) = ' ' :: sm from by
      simp [tailColon, sSumColSp, List.dropWhile_cons]]
    rw [strip_cons_ws (by decide), hst]
  simp [processLine0, secLine, e1, e2, e3, e4, e5, e6, e7, e8, e9, e10, e11, e12, etxt,
    elow, esum]

theorem step_news_url (T M : Str) (S : List PSection) (c : PSection) (u : Str)
    (hst : strip u = u)
    (hurl : begins (str "http://") u = true ∨ begins (str "https://") u = true) :
    processLine0 ⟨T, M, S, some c, PMode.news, true⟩ (str "    - " ++ u) =
      ⟨T, M, S, some { c with news := setLast (fun it => { it with url := u }) c.news },
       PMode.news, true⟩ := by
  have hhead : ∃ r, u = 'h' :: r := by
    rcases hurl with h | h <;>
    · obtain ⟨r, hr⟩ := begins_iff_append.mp h
      exact ⟨_, hr⟩
  have e1 : begins (str "# ") (str "    - " ++ u) = false := by
    rw [begins_append_of_le _ _ _ (by decide)]; decide
  have e2 : begins (str "## ") (str "    - " ++ u) = false := by
    rw [begins_append_of_le _ _ _ (by decide)]; decide
  have e3 : begins (str "### ") (str "    - " ++ u) = false := by
    rw [begins_append_of_le _ _ _ (by decide)]; decide
  have e4 : begins (str "- Date:") (str "    - " ++ u) = false := by
    rw [begins_append_of_not_rev _ _ _ (by decide)]; decide
  have e5 : begins (str "- Close:") (str "    - " ++ u) = false := by
    rw [begins_append_of_not_rev _ _ _ (by decide)]; decide
  have e6 : begins (str "- Volume:") (str "    - " ++ u) = false := by
    rw [begins_append_of_not_rev _ _ _ (by decide)]; decide
  have e7 : begins (str "- 20D Range:") (str "    - " ++ u) = false := by
    rw [begins_append_of_not_rev _ _ _ (by decide)]; decide
  have e8 : begins (str "- News") (str "    - " ++ u) = false := by
    rw [begins_append_of_not_rev _ _ _ (by decide)]; decide
  have e9 : begins (str "- AI Summary:") (str "    - " ++ u) = false := by
    rw [begins_append_of_not_rev _ _ _ (by decide)]; decide
  have e10 : begins (str "- Summary:") (str "    - " ++ u) = false := by
    rw [begins_append_of_not_rev _ _ _ (by decide)]; decide
  have e11 : bullet2 (str "    - " ++ u) = false := by
    rw [sBul4]
    simp [bullet2_cons4, wsb]
  have e12 : bullet4 (str "    - " ++ u) = true := by
    obtain ⟨r, hr⟩ := hhead
    rw [sBul4, hr]
    simp [bullet4, wsb]
  have etxt : strip ((str "    - " ++ u).drop 5) = u := by
    rw [sBul4]
    simp only [List.cons_append, List.drop_succ_cons, List.drop_zero, List.nil_append]
    rw [strip_cons_ws (by decide), hst]
  have elow : begins (str "summary:") (lowerStr u) = false := by
    obtain ⟨r, hr⟩ := hhead
    rw [hr]
    show begins (str "summary:") (lowerChar 'h' :: List.map lowerChar r) = false
    rw [show lowerChar 'h' = 'h' from rfl, sSumLow]
    simp
  have eurl : isUrlB u = true := by
    unfold isUrlB
    rw [hst]
    rcases hurl with h | h <;> simp [h]
  simp [processLine0, secLine, e1, e2, e3, e4, e5, e6, e7, e8, e9, e10, e11, e12, etxt,
    elow, eurl]

theorem step_ai_bullet (T M : Str) (S : List PSection) (c : PSection) (ln : Bool)
    (hai : c.ai = []) (s : Str) :
    processLine0 ⟨T, M, S, some c, PMode.ai, ln⟩ (str "  - " ++ s) =
      ⟨T, M, S, some { c with ai := strip s }, PMode.ai, ln⟩ := by
  have e1 : begins (str "# ") (str "  - " ++ s) = false := by
    rw [begins_append_of_le _ _ _ (by decide)]; decide
  have e2 : begins (str "## ") (str "  - " ++ s) = false := by
    rw [begins_append_of_le _ _ _ (by decide)]; decide
  have e3 : begins (str "### ") (str "  - " ++ s) = false := by
    rw [begins_append_of_le _ _ _ (by decide)]; decide
  have e4 : begins (str "- Date:") (str "  - " ++ s) = false := by
    rw [begins_append_of_not_rev _ _ _ (by decide)]; decide
  have e5 : begins (str "- Close:") (str "  - " ++ s) = false := by
    rw [begins_append_of_not_rev _ _ _ (by decide)]; decide
  have e6 : begins (str "- Volume:") (str "  - " ++ s) = false := by
    rw [begins_append_of_not_rev _ _ _ (by decide)]; decide
  have e7 : begins (str "- 20D Range:") (str "  - " ++ s) = false := by
    rw [begins_append_of_not_rev _ _ _ (by decide)]; decide
  have e8 : begins (str "- News") (str "  - " ++ s) = false := by
    rw [begins_append_of_not_rev _ _ _ (by decide)]; decide
  have e9 : begins (str "- AI Summary:") (str "  - " ++ s) = false := by
    rw [begins_append_of_not_rev _ _ _ (by decide)]; decide
  have e10 : begins (str "- Summary:") (str "  - " ++ s) = false := by
    rw [begins_append_of_not_rev _ _ _ (by decide)]; decide
  have e11 : bullet2 (str "  - " ++ s) = true := by
    rw [sBul2]
    simp [bullet2_cons4, wsb]
  have e12 : (str "  - " ++ s).drop 3 = ' ' :: s := by simp [sBul2]
  simp [processLine0, secLine, e1, e2, e3, e4, e5, e6, e7, e8, e9, e10, e11, e12, hai,
    strip_cons_ws]

theorem step_latest (T M : Str) (S : List PSection) (c : PSection) (x : Str) :
    processLine0 ⟨T, M, S, some c, PMode.off, false⟩ (str "- Latest: " ++ x) =
      ⟨T, M, S, some c, PMode.off, false⟩ := by
  have e1 : begins (str "# ") (str "- Latest: " ++ x) = false := by
    rw [begins_append_of_le _ _ _ (by decide)]; decide
  have e2 : begins (str "## ") (str "- Latest: " ++ x) = false := by
    rw [begins_append_of_le _ _ _ (by decide)]; decide
  have e3 : begins (str "### ") (str "- Latest: " ++ x) = false := by
    rw [begins_append_of_le _ _ _ (by decide)]; decide
  have e4 : begins (str "- Date:") (str "- Latest: " ++ x) = false := by
    rw [begins_append_of_le _ _ _ (by decide)]; decide
  have e5 : begins (str "- Close:") (str "- Latest: " ++ x) = false := by
    rw [begins_append_of_le _ _ _ (by decide)]; decide
  have e6 : begins (str "- Volume:") (str "- Latest: " ++ x) = false := by
    rw [begins_append_of_le _ _ _ (by decide)]; decide
  have e7 : begins (str "- 20D Range:") (str "- Latest: " ++ x) = false := by
    rw [begins_append_of_not_rev _ _ _ (by decide)]; decide
  have e8 : begins (str "- News") (str "- Latest: " ++ x) = false := by
    rw [begins_append_of_le _ _ _ (by decide)]; decide
  have e9 : begins (str "- AI Summary:") (str "- Latest: " ++ x) = false := by
    rw [begins_append_of_not_rev _ _ _ (by decide)]; decide
  have e10 : begins (str "- Summary:") (str "- Latest: " ++ x) = false := by
    rw [begins_append_of_le _ _ _ (by decide)]; decide
  simp [processLine0, secLine, e1, e2, e3, e4, e5, e6, e7, e8, e9, e10]

theorem processLine0_blank (st : PState) : processLine0 st [] = st := by
  unfold processLine0
  simp only [begins, Bool.false_eq_true, if_false, and_false]
  cases st.cur with
  | none => rfl
  | some c => exact secLine_blank st c

theorem step_title (T M : Str) (S : List PSection) (cur : Option PSection) (m : PMode)
    (ln : Bool) (x : Str) :
    processLine0 ⟨T, M, S, cur, m, ln⟩ (str "# " ++ x) =
      ⟨strip x, M, S, cur, m, ln⟩ := by
  have e1 : begins (str "# ") (str "# " ++ x) = true := by
    rw [begins_append_of_le _ _ _ (by decide)]; decide
  have e2 : (str "# " ++ x).drop 2 = x := by simp [sHash]
  simp [processLine0, e1, e2]

theorem foldl_processLine_eq0 (ls : List Str) (h : ∀ l ∈ ls, '\n' ∉ l) :
    ∀ st : PState, List.foldl processLine st ls = List.foldl processLine0 st ls := by
  induction ls with
  | nil => intro st; rfl
  | cons l ls ih =>
    intro st
    rw [List.foldl_cons, List.foldl_cons,
        show processLine st l = processLine0 st l from by
          unfold processLine
          rw [rstripNl_eq_self (h l (List.mem_cons_self _ _))],
        ih (fun x hx => h x (List.mem_cons_of_mem _ hx))]

theorem setLast_append_singleton (f : α → α) (l : List α) (a : α) :
    setLast f (l ++ [a]) = l ++ [f a] := by
  induction l with
  | nil => rfl
  | cons x l ih =>
    cases l with
    | nil => rfl
    | cons y l => simpa [setLast] using ih

/-! ## The formatted numbers contain no line break -/

theorem digCh_plain (d : ℕ) : digCh d ≠ '\n' ∧ digCh d ≠ '\r' := by
  unfold digCh
  split <;> exact ⟨by decide, by decide⟩

theorem natCharsGo_mem {fuel n : ℕ} {acc : Str} {c : Char}
    (h : c ∈ natCharsGo fuel n acc) : (∃ d, c = digCh d) ∨ c ∈ acc := by
  induction fuel generalizing n acc with
  | zero => exact Or.inr h
  | succ fuel ih =>
    unfold natCharsGo at h
    by_cases hn : n < 10
    · rw [if_pos hn] at h
      rcases List.mem_cons.mp h with rfl | h
      · exact Or.inl ⟨n, rfl⟩
      · exact Or.inr h
    · rw [if_neg hn] at h
      rcases ih h with h2 | h2
      · exact Or.inl h2
      · rcases List.mem_cons.mp h2 with rfl | h3
        · exact Or.inl ⟨n % 10, rfl⟩
        · exact Or.inr h3

theorem NoNL_natChars (n : ℕ) : NoNL (natChars n) := by
  intro c hc
  rcases natCharsGo_mem hc with ⟨d, rfl⟩ | h
  · exact digCh_plain d
  · cases h

theorem NoNL_pad2 (k : ℕ) : NoNL (pad2 k) := by
  unfold pad2
  split
  · intro c hc
    rcases List.mem_cons.mp hc with rfl | h
    · exact ⟨by decide, by decide⟩
    · exact NoNL_natChars k c h
  · exact NoNL_natChars k

theorem NoNL_fmtAbs (c : ℤ) : NoNL (fmtAbs c) := by
  unfold fmtAbs
  rw [NoNL_append]
  refine ⟨NoNL_natChars _, ?_⟩
  intro d hd
  rcases List.mem_cons.mp hd with rfl | h
  · exact ⟨by decide, by decide⟩
  · exact NoNL_pad2 _ d h

theorem NoNL_fmt2 (q : ℚ) : NoNL (fmt2 q) := by
  unfold fmt2
  rw [NoNL_append]
  constructor
  · split
    · intro c hc
      rcases List.mem_cons.mp hc with rfl | h
      · exact ⟨by decide, by decide⟩
      · cases h
    · intro c hc; cases hc
  · exact NoNL_fmtAbs _

theorem NoNL_fmtPlus2 (q : ℚ) : NoNL (fmtPlus2 q) := by
  unfold fmtPlus2
  rw [NoNL_append]
  constructor
  · split <;>
    · intro c hc
      rcases List.mem_cons.mp hc with rfl | h
      · exact ⟨by decide, by decide⟩
      · cases h
  · exact NoNL_fmtAbs _

theorem grpRev_mem {l : Str} {c : Char} (h : c ∈ grpRev l) : c ∈ l ∨ c = ',' := by
  induction l using grpRev.induct with
  | case1 a b c2 d rest ih =>
    rcases List.mem_cons.mp h with rfl | h2
    · exact Or.inl (by simp)
    rcases List.mem_cons.mp h2 with rfl | h3
    · exact Or.inl (by simp)
    rcases List.mem_cons.mp h3 with rfl | h4
    · exact Or.inl (by simp)
    rcases List.mem_cons.mp h4 with rfl | h5
    · exact Or.inr rfl
    · rcases ih h5 with h6 | h6
      · rcases List.mem_cons.mp h6 with rfl | h7
        · exact Or.inl (by simp)
        · exact Or.inl (by simp [List.mem_cons, h7])
      · exact Or.inr h6
  | case2 l hne =>
    rcases l with - | ⟨a, - | ⟨b, - | ⟨c3, - | ⟨d, rest⟩⟩⟩⟩
    · exact Or.inl h
    · exact Or.inl h
    · exact Or.inl h
    · exact Or.inl h
    · exact absurd rfl (hne a b c3 d rest)

theorem NoNL_fmtComma (v : ℤ) : NoNL (fmtComma v) := by
  unfold fmtComma
  rw [NoNL_append]
  constructor
  · split
    · intro c hc
      rcases List.mem_cons.mp hc with rfl | h
      · exact ⟨by decide, by decide⟩
      · cases h
    · intro c hc; cases hc
  · intro c hc
    rw [List.mem_reverse] at hc
    rcases grpRev_mem hc with h | rfl
    · rw [List.mem_reverse] at h
      exact NoNL_natChars _ c h
    · exact ⟨by decide, by decide⟩

/-! ## The expected parse of one serialized section -/

theorem forall_NoNL_append {A B : List Str} (ha : ∀ l ∈ A, NoNL l)
    (hb : ∀ l ∈ B, NoNL l) : ∀ l ∈ A ++ B, NoNL l :=
  fun l hl => (List.mem_append.mp hl).elim (ha l) (hb l)

theorem forall_NoNL_cons {a : Str} {A : List Str} (h1 : NoNL a)
    (h2 : ∀ l ∈ A, NoNL l) : ∀ l ∈ a :: A, NoNL l :=
  fun l hl => (List.mem_cons.mp hl).elim (fun e => e ▸ h1) (h2 l)

theorem forall_NoNL_nil : ∀ l ∈ ([] : List Str), NoNL l :=
  fun l hl => absurd hl (List.not_mem_nil l)

theorem NoNL_newsRowLines (fmtTs : Str → Str) (hts : WFts fmtTs) (r : NewsRow)
    (hw : WFnews r) : ∀ l ∈ newsRowLines fmtTs r, NoNL l := by
  obtain ⟨w1, w2, w3, w4, w5, -⟩ := hw
  have hpa : NoNL (if r.published_at.getD [] = [] then [] else fmtTs (r.published_at.getD [])) := by
    split
    · intro c hc; cases hc
    · exact hts _ w1
  have hdisp : NoNL (dispOf (newsRowItem fmtTs r)) := by
    unfold dispOf newsRowItem
    dsimp only
    simp only [List.append_assoc, NoNL_append]
    exact ⟨hpa, by decide, NoNL_strip w4, by decide, NoNL_strip w2⟩
  unfold newsRowLines
  apply forall_NoNL_cons
  · rw [NoNL_append]
    exact ⟨by decide, hdisp⟩
  apply forall_NoNL_append
  · split
    · apply forall_NoNL_cons
      · rw [NoNL_append]
        refine ⟨by decide, ?_⟩
        show NoNL (newsRowItem fmtTs r).summary
        unfold newsRowItem
        exact NoNL_strip w3
      · exact forall_NoNL_nil
    · exact forall_NoNL_nil
  · split
    · apply forall_NoNL_cons
      · rw [NoNL_append]
        refine ⟨by decide, ?_⟩
        show NoNL (newsRowItem fmtTs r).url
        unfold newsRowItem
        exact NoNL_strip w5
      · exact forall_NoNL_nil
    · exact forall_NoNL_nil

theorem NoNL_genSection (fmtTs : Str → Str) (sfn : SumCtx → Except Str Str) (rd : Str)
    (t : TickerData) (hw : WFticker t) (hts : WFts fmtTs) (hsum : WFsum sfn) :
    ∀ l ∈ genSection fmtTs sfn rd t, NoNL l := by
  obtain ⟨w1, w2, w3⟩ := hw
  unfold genSection
  simp only [List.append_assoc]
  apply forall_NoNL_cons
  · rw [NoNL_append]
    exact ⟨by decide, w1⟩
  apply forall_NoNL_append
  · -- key-value lines
    unfold kvLines
    split
    · apply forall_NoNL_cons _ forall_NoNL_nil
      simp only [List.append_assoc, NoNL_append]
      exact ⟨by decide, w2 t.price0 (List.mem_cons_self _ _), by decide, NoNL_fmt2 _,
        by decide, NoNL_fmtComma _⟩
    · next r rs heq =>
      have hr : NoNL r.date :=
        w2 r (by rw [prices, heq]; exact List.mem_cons_of_mem _ (List.mem_cons_self _ _))
      apply forall_NoNL_cons
      · simp only [List.append_assoc, NoNL_append]
        exact ⟨by decide, hr, by decide, w2 t.price0 (List.mem_cons_self _ _)⟩
      apply forall_NoNL_cons
      · simp only [List.append_assoc, NoNL_append]
        exact ⟨by decide, NoNL_fmt2 _, by decide, NoNL_fmt2 _, by decide,
          NoNL_fmtPlus2 _, by decide⟩
      apply forall_NoNL_cons _ forall_NoNL_nil
      simp only [NoNL_append]
      exact ⟨by decide, NoNL_fmtComma _⟩
  apply forall_NoNL_append
  · -- news header and news lines
    apply forall_NoNL_cons
    · decide
    unfold newsLinesOf
    split
    · exact forall_NoNL_cons (by decide) forall_NoNL_nil
    · intro l hl
      rw [List.mem_flatten] at hl
      obtain ⟨ll, hll, hmem⟩ := hl
      obtain ⟨r, hrr, rfl⟩ := List.mem_map.mp hll
      exact NoNL_newsRowLines fmtTs hts r (w3 r hrr) l hmem
  apply forall_NoNL_append
  · -- range line and summary header
    apply forall_NoNL_cons
    · unfold rangeLine
      simp only [List.append_assoc, NoNL_append]
      exact ⟨by decide, NoNL_fmt2 _, by decide, NoNL_fmt2 _, by decide, NoNL_fmt2 _⟩
    exact forall_NoNL_cons (by decide) forall_NoNL_nil
  apply forall_NoNL_append
  · -- summary bullet
    unfold sumLines
    cases hpr : t.priceRest with
    | nil => exact forall_NoNL_cons (by decide) forall_NoNL_nil
    | cons r rs =>
      have hres := hsum (mkCtx fmtTs rd t r)
      dsimp only
      cases hcall : sfn (mkCtx fmtTs rd t r) with
      | ok s =>
        rw [hcall] at hres
        apply forall_NoNL_cons _ forall_NoNL_nil
        rw [NoNL_append]
        exact ⟨by decide, hres⟩
      | error e =>
        rw [hcall] at hres
        apply forall_NoNL_cons _ forall_NoNL_nil
        simp only [List.append_assoc, NoNL_append]
        exact ⟨by decide, hres, by decide⟩
  · exact forall_NoNL_cons (fun c hc => absurd hc (List.not_mem_nil c)) forall_NoNL_nil

/-! ## Folding the parser over serialized blocks -/

theorem foldl_newsRow (fmtTs : Str → Str) (r : NewsRow) (hw : WFnews r) (T M : Str)
    (S : List PSection) (c : PSection) (ln : Bool) :
    List.foldl processLine0 ⟨T, M, S, some c, PMode.news, ln⟩ (newsRowLines fmtTs r) =
      ⟨T, M, S, some { c with news := c.news ++ [modelNewsIt fmtTs r] }, PMode.news, true⟩ := by
  obtain ⟨-, -, -, -, -, hurl⟩ := hw
  have hsm : strip (newsRowItem fmtTs r).summary = (newsRowItem fmtTs r).summary := by
    unfold newsRowItem
    exact strip_idem _
  have hu : strip (newsRowItem fmtTs r).url = (newsRowItem fmtTs r).url := by
    unfold newsRowItem
    exact strip_idem _
  have hurl2 : urlOK (newsRowItem fmtTs r).url := hurl
  unfold newsRowLines modelNewsIt
  by_cases hsme : (newsRowItem fmtTs r).summary = []
  · by_cases hue : (newsRowItem fmtTs r).url = []
    · rw [if_neg (by simp [hsme]), if_neg (by simp [hue])]
      rw [show ([] ++ [] : List Str) = [] from rfl, List.foldl_cons, step_news_item, List.foldl_nil]
      rw [hsme, hue]
    · rcases hurl2 with he | hbu
      · exact absurd he hue
      rw [if_neg (by simp [hsme]), if_pos (by simp [hue])]
      rw [List.nil_append, List.foldl_cons, step_news_item, List.foldl_cons,
          step_news_url T M S _ _ hu hbu, List.foldl_nil]
      rw [setLast_append_singleton]
      rw [hsme]
  · rw [if_pos (by simp [hsme])]
    by_cases hue : (newsRowItem fmtTs r).url = []
    · rw [if_neg (by simp [hue]), List.append_nil]
      rw [List.foldl_cons, step_news_item, List.foldl_cons,
          step_news_summary T M S _ _ hsm hsme, List.foldl_nil]
      rw [setLast_append_singleton]
      rw [hue]
    · rcases hurl2 with he | hbu
      · exact absurd he hue
      rw [if_pos (by simp [hue])]
      simp only [List.cons_append, List.nil_append]
      rw [List.foldl_cons, step_news_item, List.foldl_cons,
          step_news_summary T M S _ _ hsm hsme, List.foldl_cons,
          step_news_url T M S _ _ hu hbu, List.foldl_nil]
      rw [setLast_append_singleton, setLast_append_singleton]

theorem foldl_newsRows (fmtTs : Str → Str) (rows : List NewsRow)
    (hw : ∀ r ∈ rows, WFnews r) :
    ∀ (T M : Str) (S : List PSection) (c : PSection) (ln : Bool),
    List.foldl processLine0 ⟨T, M, S, some c, PMode.news, ln⟩
        ((rows.map (newsRowLines fmtTs)).flatten) =
      ⟨T, M, S, some { c with news := c.news ++ rows.map (modelNewsIt fmtTs) },
       PMode.news, if rows = [] then ln else true⟩ := by
  induction rows with
  | nil =>
    intro T M S c ln
    simp
  | cons r rows ih =>
    intro T M S c ln
    rw [List.map_cons, List.flatten_cons, List.foldl_append,
        foldl_newsRow fmtTs r (hw r (List.mem_cons_self _ _)),
        ih (fun x hx => hw x (List.mem_cons_of_mem _ hx))]
    simp

theorem foldl_sumTail (fmtTs : Str → Str) (sfn : SumCtx → Except Str Str) (rd : Str)
    (t : TickerData) (T M : Str) (S : List PSection) (c : PSection) (ln : Bool)
    (hai : c.ai = []) :
    List.foldl processLine0 ⟨T, M, S, some c, PMode.ai, ln⟩
        (sumLines fmtTs sfn rd t ++ [[]]) =
      ⟨T, M, S, some { c with ai := modelAi fmtTs sfn rd t }, PMode.ai, ln⟩ := by
  unfold sumLines modelAi
  cases hpr : t.priceRest with
  | nil =>
    dsimp only
    rw [show str "  - (need at least 2 trading days of price data)" =
        str "  - " ++ str "(need at least 2 trading days of price data)" from rfl,
        List.cons_append, List.nil_append, List.foldl_cons, step_ai_bullet _ _ _ _ _ hai,
        List.foldl_cons, processLine0_blank, List.foldl_nil,
        show strip (str "(need at least 2 trading days of price data)") =
          str "(need at least 2 trading days of price data)" from by decide]
  | cons r rs =>
    dsimp only
    cases hcall : sfn (mkCtx fmtTs rd t r) with
    | ok s =>
      dsimp only
      rw [List.cons_append, List.nil_append, List.foldl_cons, step_ai_bullet _ _ _ _ _ hai,
          List.foldl_cons, processLine0_blank, List.foldl_nil]
    | error e =>
      dsimp only
      rw [show str "  - (Error: " ++ e ++ str ")" =
          str "  - " ++ (str "(Error: " ++ (e ++ str ")")) from by
        rw [show str "  - (Error: " = str "  - " ++ str "(Error: " from rfl,
            List.append_assoc, List.append_assoc]]
      rw [List.cons_append, List.nil_append, List.foldl_cons, step_ai_bullet _ _ _ _ _ hai,
          List.foldl_cons, processLine0_blank, List.foldl_nil]
      have h1 : rstrip (e ++ str ")") = e ++ str ")" := by
        rw [rstrip_append (by decide), show rstrip (str ")") = str ")" from by decide]
      rw [show strip (str "(Error: " ++ (e ++ str ")")) = str "(Error: " ++ (e ++ str ")") from
        strip_append_right (by decide) (by decide) h1 (by simp [str])]
      simp [List.append_assoc]

theorem foldl_sectionTail (fmtTs : Str → Str) (sfn : SumCtx → Except Str Str) (rd : Str)
    (t : TickerData) (w3 : ∀ r ∈ t.news, WFnews r) (T M : Str) (S : List PSection)
    (c : PSection) (m : PMode) (ln : Bool) (hai : c.ai = []) :
    List.foldl processLine0 ⟨T, M, S, some c, m, ln⟩
        (str "- News (headline + summary):" ::
          (newsLinesOf fmtTs t.news ++
            ([rangeLine t, str "- Summary:"] ++ (sumLines fmtTs sfn rd t ++ [[]])))) =
      ⟨T, M, S, some { c with
          kvRange := some (strip (str "low " ++ (fmt2 (rangeOf (closesOf t) t.price0.close).lo ++
            (str ", high " ++ (fmt2 (rangeOf (closesOf t) t.price0.close).hi ++
            (str ", position " ++ fmt2 (rangeOf (closesOf t) t.price0.close).pos)))))),
          news := c.news ++ modelNews fmtTs t.news,
          ai := modelAi fmtTs sfn rd t },
       PMode.ai, true⟩ := by
  rw [List.foldl_cons, step_news_hdr]
  rw [List.foldl_append]
  -- the news block
  have hnews : List.foldl processLine0 ⟨T, M, S, some c, PMode.news, false⟩
      (newsLinesOf fmtTs t.news) =
      ⟨T, M, S, some { c with news := c.news ++ modelNews fmtTs t.news }, PMode.news, true⟩ := by
    unfold newsLinesOf modelNews
    by_cases hn : t.news = []
    · rw [if_pos hn, if_pos hn]
      rw [show str "  - (no recent news)" = str "  - " ++ str "(no recent news)" from rfl,
          List.foldl_cons, step_news_item, List.foldl_nil,
          show strip (str "(no recent news)") = str "(no recent news)" from by decide]
    · rw [if_neg hn, if_neg hn, foldl_newsRows fmtTs t.news w3, if_neg hn]
  rw [hnews]
  -- the 20D range line
  rw [show [rangeLine t, str "- Summary:"] ++ (sumLines fmtTs sfn rd t ++ [[]]) =
      rangeLine t :: (str "- Summary:" :: (sumLines fmtTs sfn rd t ++ [[]])) from by simp]
  rw [show rangeLine t = str "- 20D Range: low " ++
      (fmt2 (rangeOf (closesOf t) t.price0.close).lo ++
        (str ", high " ++ (fmt2 (rangeOf (closesOf t) t.price0.close).hi ++
          (str ", position " ++ fmt2 (rangeOf (closesOf t) t.price0.close).pos)))) from by
    simp [rangeLine, List.append_assoc]]
  rw [List.foldl_cons, step_range, List.foldl_cons, step_sum_hdr]
  exact foldl_sumTail fmtTs sfn rd t T M S _ true hai

theorem foldl_genSection (fmtTs : Str → Str) (sfn : SumCtx → Except Str Str) (rd : Str)
    (t : TickerData) (hw : WFticker t) (T M : Str) (S : List PSection)
    (cur : Option PSection) (m : PMode) (ln : Bool) :
    List.foldl processLine0 ⟨T, M, S, cur, m, ln⟩ (genSection fmtTs sfn rd t) =
      ⟨T, M, S ++ flushCur cur, some (modelSec fmtTs sfn rd t), PMode.ai, true⟩ := by
  obtain ⟨-, -, w3⟩ := hw
  unfold genSection
  cases hpr : t.priceRest with
  | nil =>
    rw [show ((str "### " ++ t.ticker) :: kvLines t) ++
        (str "- News (headline + summary):" :: newsLinesOf fmtTs t.news) ++
        [rangeLine t, str "- Summary:"] ++ sumLines fmtTs sfn rd t ++ [[]] =
        (str "### " ++ t.ticker) ::
          ((str "- Latest: " ++ (t.price0.date ++ (str " | Close: " ++
            (fmt2 t.price0.close ++ (str " | Vol: " ++ fmtComma (t.price0.volume.getD 0)))))) ::
            (str "- News (headline + summary):" ::
              (newsLinesOf fmtTs t.news ++ ([rangeLine t, str "- Summary:"] ++
                (sumLines fmtTs sfn rd t ++ [[]]))))) from by
      unfold kvLines; rw [hpr]; simp [List.append_assoc]]
    rw [List.foldl_cons, step_hdr, List.foldl_cons, step_latest]
    refine Eq.trans (foldl_sectionTail fmtTs sfn rd t w3 T M _ _ _ _ ?_) ?_
    · exact rfl
    · unfold modelSec
      rw [hpr]
      simp [freshSec, List.append_assoc]
  | cons r rs =>
    rw [show ((str "### " ++ t.ticker) :: kvLines t) ++
        (str "- News (headline + summary):" :: newsLinesOf fmtTs t.news) ++
        [rangeLine t, str "- Summary:"] ++ sumLines fmtTs sfn rd t ++ [[]] =
        (str "### " ++ t.ticker) ::
          ((str "- Date: " ++ (r.date ++ (str " → " ++ t.price0.date))) ::
            ((str "- Close: " ++ (fmt2 r.close ++ (str " → " ++ (fmt2 t.price0.close ++
              (str " (" ++ (fmtPlus2 (pctOf r.close t.price0.close) ++ str "%)")))))) ::
              ((str "- Volume: " ++ fmtComma (t.price0.volume.getD 0)) ::
                (str "- News (headline + summary):" ::
                  (newsLinesOf fmtTs t.news ++ ([rangeLine t, str "- Summary:"] ++
                    (sumLines fmtTs sfn rd t ++ [[]]))))))) from by
      unfold kvLines; rw [hpr]; simp [List.append_assoc]]
    rw [List.foldl_cons, step_hdr, List.foldl_cons, step_date, List.foldl_cons, step_close,
        List.foldl_cons, step_volume]
    refine Eq.trans (foldl_sectionTail fmtTs sfn rd t w3 T M _ _ _ _ ?_) ?_
    · exact rfl
    · unfold modelSec
      rw [hpr]
      simp [freshSec, List.append_assoc]

theorem NoNL_foldl_maxStr (l : List Str) :
    ∀ a : Str, NoNL a → (∀ x ∈ l, NoNL x) → NoNL (l.foldl maxStr a) := by
  induction l with
  | nil => intro a ha _; exact ha
  | cons x l ih =>
    intro a ha hl
    rw [List.foldl_cons]
    apply ih
    · unfold maxStr
      by_cases hx : strLtB a x = true
      · rw [if_pos hx]; exact hl x (List.mem_cons_self x l)
      · rw [if_neg hx]; exact ha
    · intro y hy; exact hl y (List.mem_cons_of_mem _ hy)

theorem NoNL_reportDate (now : Str) (db : List TickerData) (hnow : NoNL now)
    (hdb : ∀ t ∈ db, NoNL t.price0.date) : NoNL (reportDate now db) := by
  unfold reportDate
  cases hd : db.map (fun t => t.price0.date) with
  | nil => exact hnow
  | cons d ds =>
    have hall : ∀ x ∈ d :: ds, NoNL x := by
      rw [← hd]
      intro x hx
      obtain ⟨t, ht, hx2⟩ := List.mem_map.mp hx
      rw [← hx2]; exact hdb t ht
    exact NoNL_foldl_maxStr ds d (hall d (List.mem_cons_self d ds))
      (fun x hx => hall x (List.mem_cons_of_mem _ hx))

theorem joinNL_split (a : Str) (rest : List Str) :
    joinNL ((a ++ ['\n']) :: rest) = joinNL (a :: ([] :: rest)) := by
  cases rest with
  | nil => simp [joinNL]
  | cons b bs => simp [joinNL]

theorem getLast_genSection (fmtTs : Str → Str) (sfn : SumCtx → Except Str Str) (rd : Str)
    (t : TickerData) : (genSection fmtTs sfn rd t).getLast? = some [] := by
  unfold genSection
  exact List.getLast?_concat _

theorem getLast_secBlocks (fmtTs : Str → Str) (sfn : SumCtx → Except Str Str) (rd : Str)
    (db : List TickerData) (hne : db ≠ []) :
    ((db.map (genSection fmtTs sfn rd)).flatten).getLast? = some [] := by
  induction db with
  | nil => exact absurd rfl hne
  | cons t rest ih =>
    rw [List.map_cons, List.flatten_cons]
    cases hr : rest with
    | nil =>
      simp only [List.map_nil, List.flatten_nil, List.append_nil]
      exact getLast_genSection fmtTs sfn rd t
    | cons t2 rest2 =>
      have h2 := ih (by simp [hr])
      rw [hr] at h2
      rw [List.getLast?_append_of_ne_nil]
      · exact h2
      · intro he
        rw [he] at h2
        simp at h2

theorem foldl_dropLast_blank (ls : List Str) (h : ls.getLast? = some []) (st : PState) :
    List.foldl processLine0 st ls.dropLast = List.foldl processLine0 st ls := by
  have hne : ls ≠ [] := by intro e; rw [e] at h; simp at h
  have h2 : ls.getLast hne = [] := by
    have h3 := List.getLast?_eq_getLast ls hne
    rw [h3] at h
    exact Option.some.inj h
  conv_rhs => rw [← List.dropLast_append_getLast hne]
  rw [List.foldl_append, h2, List.foldl_cons, processLine0_blank, List.foldl_nil]

theorem foldl_genSections (fmtTs : Str → Str) (sfn : SumCtx → Except Str Str) (rd : Str)
    (db : List TickerData) (hw : ∀ t ∈ db, WFticker t) :
    ∀ (T M : Str) (S : List PSection) (cur : Option PSection) (m : PMode) (ln : Bool),
    ∃ (S2 : List PSection) (cur2 : Option PSection) (m2 : PMode) (ln2 : Bool),
      List.foldl processLine0 ⟨T, M, S, cur, m, ln⟩
          ((db.map (genSection fmtTs sfn rd)).flatten) = ⟨T, M, S2, cur2, m2, ln2⟩ ∧
      S2 ++ flushCur cur2 = S ++ flushCur cur ++ db.map (modelSec fmtTs sfn rd) := by
  induction db with
  | nil =>
    intro T M S cur m ln
    exact ⟨S, cur, m, ln, rfl, by simp⟩
  | cons t rest ih =>
    intro T M S cur m ln
    rw [List.map_cons, List.flatten_cons, List.foldl_append,
        foldl_genSection fmtTs sfn rd t (hw t (List.mem_cons_self t rest))]
    obtain ⟨S2, cur2, m2, ln2, heq, hflush⟩ :=
      ih (fun x hx => hw x (List.mem_cons_of_mem _ hx)) T M (S ++ flushCur cur)
        (some (modelSec fmtTs sfn rd t)) PMode.ai true
    refine ⟨S2, cur2, m2, ln2, heq, ?_⟩
    rw [hflush]
    simp [flushCur]

theorem strip_titleBody (rd : Str) :
    strip (str "Daily Market Report (" ++ (rd ++ str ")")) =
      str "Daily Market Report (" ++ (rd ++ str ")") := by
  have h1 : rstrip (rd ++ str ")") = rd ++ str ")" := by
    rw [rstrip_append (by decide), show rstrip (str ")") = str ")" from by decide]
  exact strip_append_right (by decide) (by decide) h1 (by simp [str])

theorem generate_parse_roundtrip (fmtTs : Str → Str) (sfn : SumCtx → Except Str Str)
    (now : Str) (db : List TickerData) (hdb : WFdb db) (hts : WFts fmtTs)
    (hsum : WFsum sfn) (hnow : NoNL now) :
    parse_report (genText fmtTs sfn now db) =
      ⟨str "Daily Market Report (" ++ (reportDate now db ++ str ")"), [],
       db.map (modelSec fmtTs sfn (reportDate now db))⟩ := by
  unfold parse_report genText generateLines
  rw [show str "# Daily Market Report (" ++ reportDate now db ++ str ")" ++ ['\n'] =
      (str "# " ++ (str "Daily Market Report (" ++ (reportDate now db ++ str ")"))) ++ ['\n'] from by
    rw [show str "# Daily Market Report (" = str "# " ++ str "Daily Market Report (" from rfl]
    simp [List.append_assoc]]
  rw [joinNL_split]
  have hrd : NoNL (reportDate now db) :=
    NoNL_reportDate now db hnow
      (fun t ht => (hdb t ht).2.1 t.price0 (List.mem_cons_self _ _))
  have htitle0 : NoNL (str "# " ++ (str "Daily Market Report (" ++
      (reportDate now db ++ str ")"))) :=
    NoNL_append.mpr ⟨by decide, NoNL_append.mpr ⟨by decide, NoNL_append.mpr ⟨hrd, by decide⟩⟩⟩
  have hblocks : ∀ l ∈ (db.map (genSection fmtTs sfn (reportDate now db))).flatten, NoNL l := by
    intro l hl
    obtain ⟨blk, hblk, hlb⟩ := List.mem_flatten.mp hl
    obtain ⟨t, ht, hteq⟩ := List.mem_map.mp hblk
    rw [← hteq] at hlb
    exact NoNL_genSection fmtTs sfn (reportDate now db) t (hdb t ht) hts hsum l hlb
  have hall : ∀ l ∈ (str "# " ++ (str "Daily Market Report (" ++
      (reportDate now db ++ str ")"))) :: ([] ::
        (db.map (genSection fmtTs sfn (reportDate now db))).flatten), NoNL l :=
    forall_NoNL_cons htitle0
      (forall_NoNL_cons (fun c hc => absurd hc (List.not_mem_nil c)) hblocks)
  rw [splitlines_joinNL _ hall]
  have hlast : ((str "# " ++ (str "Daily Market Report (" ++
      (reportDate now db ++ str ")"))) :: ([] ::
        (db.map (genSection fmtTs sfn (reportDate now db))).flatten)).getLast? = some [] := by
    by_cases hdbe : db = []
    · subst hdbe; rfl
    · have hb := getLast_secBlocks fmtTs sfn (reportDate now db) db hdbe
      have hbne : (db.map (genSection fmtTs sfn (reportDate now db))).flatten ≠ [] := by
        intro e; rw [e] at hb; simp at hb
      rw [show ((str "# " ++ (str "Daily Market Report (" ++
          (reportDate now db ++ str ")"))) :: ([] ::
            (db.map (genSection fmtTs sfn (reportDate now db))).flatten)) =
          [str "# " ++ (str "Daily Market Report (" ++ (reportDate now db ++ str ")")), []] ++
            (db.map (genSection fmtTs sfn (reportDate now db))).flatten from rfl]
      rw [List.getLast?_append_of_ne_nil]
      · exact hb
      · exact hbne
  rw [if_pos hlast]
  unfold parseLines
  rw [foldl_processLine_eq0 _ (fun l hl hin =>
    (hall l ((List.dropLast_sublist _).subset hl) '\n' hin).1 rfl)]
  rw [foldl_dropLast_blank _ hlast]
  rw [show initState = (⟨[], [], [], none, PMode.off, false⟩ : PState) from rfl]
  rw [List.foldl_cons, step_title, List.foldl_cons, processLine0_blank]
  obtain ⟨S2, cur2, m2, ln2, heq, hflush⟩ :=
    foldl_genSections fmtTs sfn (reportDate now db) db hdb (strip (str "Daily Market Report (" ++
      (reportDate now db ++ str ")"))) [] [] none PMode.off false
  rw [heq]
  dsimp only
  rw [hflush, strip_titleBody]
  simp [flushCur]

theorem wfdb_sample : WFdb [tSample] := by
  intro t ht
  rw [List.mem_singleton] at ht
  subst ht
  exact ⟨by decide, by decide, fun r hr => absurd hr (List.not_mem_nil r)⟩

theorem wfts_id : WFts (fun s => s) := fun _ h => h

theorem wfsum_sfnOk : WFsum sfnOk := fun _ => (by decide : NoNL (str "Steady close."))

unseal Rat.sub Rat.mul Rat.inv Rat.add in
/-- C1: counterexample to the literal round-trip property.  `tSample` has no
news rows, yet serializing it with `generate` and re-parsing with
`parse_report` yields a section carrying one news display item — the
`(no recent news)` placeholder bullet is indistinguishable from a real
headline in the markup — so the news display lines of R are not reproduced
exactly (even up to whitespace normalization). -/
theorem c1_counterexample :
    tSample.news = [] ∧
    (parse_report (genText (fun s => s) sfnOk (str "2026-01-11") [tSample])).sections.map
        (fun c => c.news) = [[⟨str "(no recent news)", [], []⟩]] :=
  ⟨rfl, by decide⟩

/-- C1 (amended): for well-formed inputs (newline-free tickers, dates, news
fields and collaborator outputs), parsing the markup produced by `generate`
reproduces the report exactly, up to whitespace normalization, **except**
that a ticker with no news rows comes back with the single
`(no recent news)` placeholder as a news display item (`modelSec` /
`modelNews`): symbols, key/value fields, news summaries, news urls and the
narrative text are all recovered. -/
theorem c1_amended (fmtTs : Str → Str) (sfn : SumCtx → Except Str Str)
    (now : Str) (db : List TickerData) (hdb : WFdb db) (hts : WFts fmtTs)
    (hsum : WFsum sfn) (hnow : NoNL now) :
    parse_report (genText fmtTs sfn now db) =
      ⟨str "Daily Market Report (" ++ (reportDate now db ++ str ")"), [],
       db.map (modelSec fmtTs sfn (reportDate now db))⟩ :=
  generate_parse_roundtrip fmtTs sfn now db hdb hts hsum hnow

/-- C1 witness: the amended round trip at a concrete store. -/
theorem c1_witness :
    WFdb [tSample] ∧ WFts (fun s => s) ∧ WFsum sfnOk ∧ NoNL (str "2026-01-11") ∧
    parse_report (genText (fun s => s) sfnOk (str "2026-01-11") [tSample]) =
      ⟨str "Daily Market Report (" ++ (reportDate (str "2026-01-11") [tSample] ++ str ")"), [],
       [tSample].map (modelSec (fun s => s) sfnOk (reportDate (str "2026-01-11") [tSample]))⟩ :=
  ⟨wfdb_sample, wfts_id, wfsum_sfnOk, by decide,
   c1_amended (fun s => s) sfnOk (str "2026-01-11") [tSample] wfdb_sample wfts_id
     wfsum_sfnOk (by decide)⟩
